import Mathlib

/-!
Shallow embedding of the LDAP→Zabbix synchronisation tool
(`lib/zabbixconn.py` + `lib/ldapconn.py`).

The target system (Zabbix) is modelled by an explicit state `ZState`;
the directory (LDAP) is modelled by an immutable snapshot `Dir` holding
the answers the `LDAPConn` contract returns.  `ZabbixConn.sync_users`
becomes a pure function from a configuration, a directory snapshot and a
target state to an `Out` record: the list of emitted events (mutating
RPC calls and intended-action log lines), the final target state, and
an optional uncaught Python exception (`Err`).

Python iteration over `set(...)` has unspecified order; the embedding
determinises it as first-occurrence order of the underlying lists, which
is membership-equivalent.  `re`-based matching is translated per the
semantics worked out from the concrete patterns (documented at each
definition).
-/

deriving instance DecidableEq for Except

namespace LdapZabbixSync

/-- A Zabbix user account: its server-assigned id and the value of the
username attribute (`alias` / `username` depending on server version;
modelled as one field). -/
structure ZUser where
  userid : String
  username : String
deriving DecidableEq, Repr

/-- A Zabbix user group (name and `usrgrpid`). -/
structure ZGroup where
  name : String
  usrgrpid : String
deriving DecidableEq, Repr

/-- A contact-media entry attached to a Zabbix user. -/
structure ZMedia where
  mediaid : String
  userid : String
  mediatypeid : String
  sendto : String
deriving DecidableEq, Repr

/-- The state of the target (Zabbix) system: accounts, user groups,
group membership pairs `(usrgrpid, userid)`, media types
(name ↦ mediatypeid) and per-user media entries.  `nextId` feeds the
server-side id generator for newly created objects. -/
structure ZState where
  users : List ZUser
  groups : List ZGroup
  membership : List (String × String)
  mediatypes : List (String × String)
  medias : List ZMedia
  nextId : Nat
deriving DecidableEq, Repr

/-- A snapshot of the directory, at the contract boundary of `LDAPConn`:
`groupMembers` maps a group name to the username ↦ DN dictionary that
`LDAPConn.get_group_members` would return (a name absent from the list
models the `None` NotFound return); `givenName`, `sn` map a DN to the
attribute value (`None` when absent); `media` maps a (DN, attribute
name) pair to the media address. -/
structure Dir where
  groupMembers : List (String × List (String × String))
  givenName : List (String × String)
  sn : List (String × String)
  media : List ((String × String) × String)
deriving DecidableEq, Repr

/-- The configuration fields of `ZabbixConn` that `sync_users` reads
(already resolved, as in `ZabbixConn.__init__`).  `alldirusergroup` and
`ldap_media` are falsy-or-string in Python and become `Option String`.
`apiVersion` is the string reported by `conn.api_version()`. -/
structure Config where
  dryrun : Bool
  preserve_accountids : Bool
  alldirusergroup : Option String
  ldap_groups : List String
  deleteorphans : Bool
  removeabsent : Bool
  ldap_media : Option String
  media_name : String
  media_opt : List (String × String)
  user_opt : List (String × String)
  apiVersion : String
deriving DecidableEq, Repr

/-- Mutating Zabbix RPC calls (the TargetClient write API). -/
inductive Rpc where
  | userCreate (username name surname : String) (gid : String) (roleId : Option String)
  | userDelete (userid : Option String)
  | usergroupUpdate (gid : String) (userids : List String)
  | usergroupMassadd (gid : String) (userids : List String)
  | usergroupCreate (name : String)
  | userUpdateMedia (userid : String) (medias : List (String × String))
  | userDeleteMedia (mediaid : String)
deriving DecidableEq, Repr

/-- Intended-action log lines emitted by `sync_users` (the logger calls
that announce a create / add / delete / remove / media action). -/
inductive LogAct where
  | createUser (u g : String)
  | addToGroup (u g : String)
  | deleteUser (u : String)
  | removeFromGroup (u : String)
  | updateMedia (u : String)
deriving DecidableEq, Repr

/-- An observable event of a run: a mutating RPC call or an
intended-action log line. -/
inductive Event where
  | rpc (r : Rpc)
  | log (a : LogAct)
deriving DecidableEq, Repr

/-- Uncaught Python exceptions of the modelled code paths. -/
inductive Err where
  | attributeError
  | keyError (k : String)
  | indexError
  | nameError
  | invalidSeverity (s : String)
  | mediaTypeNotFound (n : String)
  | mediaTypeAmbiguous (n : String)
deriving DecidableEq, Repr

/-- Result of a (partial) run: events emitted so far, resulting target
state, and the uncaught exception if the run aborted. -/
structure Out where
  evs : List Event
  st : ZState
  err : Option Err
deriving DecidableEq, Repr

/-! ### Generic helpers (Python dict / set semantics) -/

/-- Python `dict` insertion: replace the value in place when the key is
present, else append. -/
def dinsert (l : List (String × α)) (k : String) (v : α) : List (String × α) :=
  if l.any (fun p => p.1 == k) then
    l.map (fun p => if p.1 == k then (k, v) else p)
  else l ++ [(k, v)]

/-- Build a Python dict from a pair list (first-insertion order of keys,
last value wins), as a `{k: v for k, v in …}` comprehension does. -/
def dictOf (l : List (String × α)) : List (String × α) :=
  l.foldl (fun acc p => dinsert acc p.1 p.2) []

/-- Deduplicate keeping first occurrences, skipping anything in `seen`. -/
def dedupAcc (seen : List String) : List String → List String
  | [] => []
  | x :: xs => if seen.contains x then dedupAcc seen xs
               else x :: dedupAcc (x :: seen) xs

/-- Python `set(l)`, determinised to first-occurrence order of `l`. -/
def pySet (l : List String) : List String := dedupAcc [] l

/-- Python `set(a) - set(b)`, determinised to the first-occurrence order of `a`. -/
def setDiff (a b : List String) : List String :=
  pySet (a.filter (fun x => !(b.contains x)))

/-- Strict lexicographic comparison of character lists (Python `str <`
on code points). -/
def lexLT : List Char → List Char → Bool
  | [], [] => false
  | [], _ :: _ => true
  | _ :: _, [] => false
  | a :: as, b :: bs => if a < b then true else if a = b then lexLT as bs else false

/-- Python string `>=` (used by the `api_version() >= "3.4"` gates). -/
def pyStrGE (a b : String) : Bool := !(lexLT a.data b.data)

/-- Python `str(x)` for an optional id: `str(None) = "None"` (as in
`user_ids.add(str(userid))`). -/
def strOfOptId : Option String → String
  | some s => s
  | none => "None"

/-- Python `str.lower()` (ASCII folding; the identities and options in
play are ASCII). -/
def pyLower (s : String) : String := String.mk (s.data.map Char.toLower)

/-- Python `str.strip()`. -/
def pyStrip (s : String) : String :=
  String.mk (((s.data.dropWhile Char.isWhitespace).reverse.dropWhile Char.isWhitespace).reverse)

/-- Helper for `splitComma`: accumulate the current field (reversed). -/
def splitCommaAux : List Char → List Char → List String
  | acc, [] => [String.mk acc.reverse]
  | acc, c :: cs =>
      if c = ',' then String.mk acc.reverse :: splitCommaAux [] cs
      else splitCommaAux (c :: acc) cs

/-- Python `str.split(",")`. -/
def splitComma (s : String) : List String := splitCommaAux [] s.data

/-! ### Pure helper transforms -/

/-- Does the stripped string start with a digit?  This is exactly what
`re.match(r"\d+", s)` tests: `re.match` anchors at the start only, so a
single leading digit is enough (the model restricts `\d` to ASCII
digits, which covers every input the configuration format produces). -/
def startsWithDigit (s : String) : Bool :=
  match s.data with
  | [] => false
  | c :: _ => c.isDigit

/-- The fixed ordered severity names of `ZabbixConn.convert_severity`
(`sev_entries`, most significant first). -/
def severityNames : List String :=
  ["Disaster", "High", "Average", "Warning", "Information", "Not Classified"]

/-- The six severity flags, in `sev_entries` order. -/
structure SevFlags where
  d : Bool
  h : Bool
  a : Bool
  w : Bool
  i : Bool
  n : Bool
deriving DecidableEq, Repr

/-- Set the flag named by one comma-separated entry; unknown names raise
(`Exception("wrong argument: %s")`, the InvalidSeverity failure). -/
def setSevFlag (f : SevFlags) (s : String) : Except Err SevFlags :=
  if s = "Disaster" then .ok { f with d := true }
  else if s = "High" then .ok { f with h := true }
  else if s = "Average" then .ok { f with a := true }
  else if s = "Warning" then .ok { f with w := true }
  else if s = "Information" then .ok { f with i := true }
  else if s = "Not Classified" then .ok { f with n := true }
  else .error (.invalidSeverity s)

/-- Numeric value of the bitmask string built from the flags
(Disaster is the most significant of the six bits). -/
def sevMask (f : SevFlags) : Nat :=
  32 * f.d.toNat + 16 * f.h.toNat + 8 * f.a.toNat + 4 * f.w.toNat +
    2 * f.i.toNat + f.n.toNat

/-- Model of `ZabbixConn.convert_severity`: strip; if the result starts with a
digit return it unchanged; otherwise treat it as a comma-separated list
of severity names, build the 6-bit mask in `sev_entries` order and
return its decimal rendering. -/
def convert_severity (severity : String) : Except Err String :=
  let t := pyStrip severity
  if startsWithDigit t then .ok t
  else
    match ((splitComma t).map pyStrip).foldlM setSevFlag
        ⟨false, false, false, false, false, false⟩ with
    | .error e => .error e
    | .ok f => .ok (toString (sevMask f))

/-- Split a trailing run of digits preceded by a colon off a string:
the semantics of `re.match(r"^(.+):(\d+)$", s)`.  The greedy `(.+)`
forces the split at the last colon whose suffix is a nonempty all-digit
run, and the prefix must be nonempty.  (Newline-free inputs; group
specifications cannot contain newlines.) -/
def splitTrailingDigits (s : String) : String × Option String :=
  match s.data.reverse.takeWhile Char.isDigit,
        s.data.reverse.dropWhile Char.isDigit with
  | ds@(_ :: _), c :: r :: rs =>
      if c = ':' then (String.mk ((r :: rs).reverse), some (String.mk ds.reverse))
      else (s, none)
  | _, _ => (s, none)

/-- Model of `ZabbixConn._get_group_spec`: parse `"<name>:<digits>"` into the
(stripped) group name and role id; any other string is a bare group
name with no role id. -/
def get_group_spec (spec : String) : String × Option String :=
  match splitTrailingDigits spec with
  | (name, some ds) => (pyStrip name, some (pyStrip ds))
  | (_, none) => (spec, none)

/-! ### TargetClient (ZabbixConn) query models -/

/-- Model of `ZabbixConn.get_users_names`: all usernames, lowercased unless
`preserve_accountids`. -/
def get_users_names (cfg : Config) (st : ZState) : List String :=
  if cfg.preserve_accountids then st.users.map (fun u => u.username)
  else st.users.map (fun u => pyLower u.username)

/-- Model of `ZabbixConn.get_user_id`: the id of the unique user whose stored
username lowercases to `user`; `None` when no or several match. -/
def get_user_id (st : ZState) (user : String) : Option String :=
  match (st.users.filter (fun u => pyLower u.username == user)).map (fun u => u.userid) with
  | [i] => some i
  | _ => none

/-- Model of `ZabbixConn.get_groups`: names and ids of the existing groups. -/
def get_groups (st : ZState) : List ZGroup := st.groups

/-- Ids of the members of a group (the `userid`s that
`conn.user.get(usrgrpids=gid)` reports). -/
def groupMemberIds (st : ZState) (gid : String) : List String :=
  (st.users.filter (fun u => st.membership.contains (gid, u.userid))).map (fun u => u.userid)

/-- Model of `ZabbixConn.get_group_members`: the usernames of a group's members,
returned verbatim (no case folding happens here). -/
def get_group_members (st : ZState) (gid : String) : List String :=
  (st.users.filter (fun u => st.membership.contains (gid, u.userid))).map (fun u => u.username)

/-- Model of `ZabbixConn.get_mediatype_id`: resolve a media type by (stripped)
name; raises when zero or more than one match. -/
def get_mediatype_id (st : ZState) (name : String) : Except Err String :=
  match st.mediatypes.filter (fun p => p.1 == pyStrip name) with
  | [] => .error (.mediaTypeNotFound name)
  | [p] => .ok p.2
  | _ => .error (.mediaTypeAmbiguous name)

/-! ### TargetClient (ZabbixConn) mutation models -/

/-- Full-replace semantics of `usergroup.update(usrgrpid, userids)`. -/
def setGroupMembers (st : ZState) (gid : String) (ids : List String) : ZState :=
  { st with membership :=
      st.membership.filter (fun p => p.1 != gid) ++ ids.map (fun i => (gid, i)) }

/-- Additive semantics of `usergroup.massadd(usrgrpids, userids)`. -/
def addGroupMembers (st : ZState) (gid : String) (ids : List String) : ZState :=
  { st with membership :=
      st.membership ++
        (ids.filter (fun i => !(st.membership.contains (gid, i)))).map (fun i => (gid, i)) }

/-- The id list `update_user` sends on the new-API path: the group's
current member ids plus `str(userid)` (a set in the source; the model
keeps first-occurrence order). -/
def addTargetIds (st : ZState) (user : String) (gid : String) : List String :=
  let userid := get_user_id st user
  let current := groupMemberIds st gid
  if current.contains (strOfOptId userid) then current
  else current ++ [strOfOptId userid]

/-- Model of `ZabbixConn.update_user` (add an existing user to a
group): on `api_version() >= "3.4"` (Python string comparison) read the
group's current member ids, add `str(userid)` and issue a full-replace
`usergroup.update` unless dry-run; otherwise issue `usergroup.massadd`
unless dry-run. -/
def update_user (cfg : Config) (st : ZState) (user : String) (gid : String) :
    List Event × ZState :=
  let userid := get_user_id st user
  if pyStrGE cfg.apiVersion "3.4" then
    let ids := addTargetIds st user gid
    if cfg.dryrun then ([], st)
    else ([.rpc (.usergroupUpdate gid ids)], setGroupMembers st gid ids)
  else
    if cfg.dryrun then ([], st)
    else ([.rpc (.usergroupMassadd gid [strOfOptId userid])],
          addGroupMembers st gid [strOfOptId userid])

/-- The id list `remove_user` sends on the new-API path: the group's
current member ids with the user's id filtered out (`None` removes
nothing). -/
def removeTargetIds (st : ZState) (user : String) (gid : String) : List String :=
  let userid := get_user_id st user
  (groupMemberIds st gid).filter (fun i => userid != some i)

/-- Model of `ZabbixConn.remove_user`: on `api_version() >= "3.4"` issue
a full-replace `usergroup.update` with the user's id filtered out
(unless dry-run); on older versions the function body has no else
branch and does nothing at all. -/
def remove_user (cfg : Config) (st : ZState) (user : String) (gid : String) :
    List Event × ZState :=
  if pyStrGE cfg.apiVersion "3.4" then
    let ids := removeTargetIds st user gid
    if cfg.dryrun then ([], st)
    else ([.rpc (.usergroupUpdate gid ids)], setGroupMembers st gid ids)
  else ([], st)

/-- Model of `ZabbixConn.delete_user`: look the id up by username and issue
`user.delete`.  A `None` id makes the server reject the call (the
caller catches and logs such failures), so the state is unchanged. -/
def delete_user (st : ZState) (user : String) : List Event × ZState :=
  match get_user_id st user with
  | some uid =>
      ([.rpc (.userDelete (some uid))],
       { st with users := st.users.filter (fun u => u.userid != uid),
                 membership := st.membership.filter (fun p => p.2 != uid),
                 medias := st.medias.filter (fun m => m.userid != uid) })
  | none => ([.rpc (.userDelete none)], st)

/-- Model of `ZabbixConn.create_user` as invoked from `sync_users`: create the
account (fresh server id), member of `gid`.  The random password and
the pass-through `user_opt` payload fields are not observable and are
omitted; the role id is version-mapped to `roleid`/`type` inside the
payload and is carried verbatim here. -/
def create_user (st : ZState) (username name surname : String) (gid : String)
    (roleId : Option String) : List Event × ZState :=
  let uid := toString st.nextId
  ([.rpc (.userCreate username name surname gid roleId)],
   { st with users := st.users ++ [⟨uid, username⟩],
             membership := st.membership ++ [(gid, uid)],
             nextId := st.nextId + 1 })

/-- The `media_defaults` dict of `ZabbixConn.update_media`: defaults,
updated by the media options, with `description`/`name`/`onlycreate`
removed. -/
def media_defaults (mt sendto : String) (media_opt : List (String × String)) :
    List (String × String) :=
  let base := [("mediatypeid", mt), ("sendto", sendto), ("active", "0"),
               ("severity", "63"), ("period", "1-7,00:00-24:00")]
  let merged := media_opt.foldl (fun acc p => dinsert acc p.1 p.2) base
  merged.filter (fun p => !(["description", "name", "onlycreate"].contains p.1))

/-- Model of `ZabbixConn.delete_media_by_description`: delete every media entry
of the user that has the resolved media type (old-API path).  Media
type resolution may raise. -/
def delete_media_by_description (st : ZState) (user desc : String) :
    Except Err (List Event × ZState) :=
  let userid := get_user_id st user
  match get_mediatype_id st desc with
  | .error e => .error e
  | .ok mt =>
      let doomed := st.medias.filter
        (fun m => userid == some m.userid && m.mediatypeid == mt)
      let kept := st.medias.filter
        (fun m => !(userid == some m.userid && m.mediatypeid == mt))
      .ok (doomed.map (fun m => .rpc (.userDeleteMedia m.mediaid)),
           { st with medias := kept })

/-- Model of `ZabbixConn.update_media`: resolve the media type (may raise), then
on `>= "3.4"` replace the user's media list via `user.update`; on older
versions first delete the existing media of that type, then
`user.updatemedia`.  Both are modelled as a `userUpdateMedia` RPC
carrying the `media_defaults` payload. -/
def update_media (cfg : Config) (st : ZState) (user desc sendto : String)
    (media_opt : List (String × String)) : Except Err (List Event × ZState) :=
  let userid := get_user_id st user
  match get_mediatype_id st desc with
  | .error e => .error e
  | .ok mt =>
      let payload := media_defaults mt sendto media_opt
      let newMedia : ZMedia := ⟨toString st.nextId, strOfOptId userid, mt, sendto⟩
      if pyStrGE cfg.apiVersion "3.4" then
        let replaced := st.medias.filter (fun m => m.userid != strOfOptId userid) ++ [newMedia]
        .ok ([.rpc (.userUpdateMedia (strOfOptId userid) payload)],
             { st with medias := replaced, nextId := st.nextId + 1 })
      else
        match delete_media_by_description st user desc with
        | .error e => .error e
        | .ok (evs, st') =>
            .ok (evs ++ [.rpc (.userUpdateMedia (strOfOptId userid) payload)],
                 { st' with medias := st'.medias ++ [newMedia],
                            nextId := st'.nextId + 1 })

/-! ### DirectoryClient (LDAPConn) contract models -/

/-- Model of `LDAPConn.get_group_members` at its contract boundary: the username
↦ DN dictionary for a group, or `None` (NotFound) when the search
returned nothing. -/
def dir_get_group_members (d : Dir) (g : String) : Option (List (String × String)) :=
  List.lookup g d.groupMembers

/-- Model of `LDAPConn.get_user_givenName`: attribute lookup by DN, absent is
`None` not an error. -/
def dir_givenName (d : Dir) (dn : String) : Option String :=
  List.lookup dn d.givenName

/-- Model of `LDAPConn.get_user_sn`. -/
def dir_sn (d : Dir) (dn : String) : Option String :=
  List.lookup dn d.sn

/-- Model of `LDAPConn.get_user_media dn attr`. -/
def dir_media (d : Dir) (dn : String) (attr : String) : Option String :=
  List.lookup (dn, attr) d.media

/-! ### sync_users -/

/-- The `ldap_users` dict of a group pass (`sync_users` lines 424-428):
the directory dictionary copied verbatim when `preserve_accountids`,
else rebuilt with lowercased keys (later duplicate keys win, as in the
Python dict comprehension). -/
def ldapUsersOf (cfg : Config) (raw : List (String × String)) : List (String × String) :=
  if cfg.preserve_accountids then dictOf raw
  else dictOf (raw.map (fun p => (pyLower p.1, p.2)))

/-- Model of `sync_users` lines 405-410: build a list of the ids of the groups
whose name equals the configured all-directory-users group name, then
— outside the loop — append the loop variable's id once more, and
`pop()` the result.  An empty `get_groups()` leaves the loop variable
unbound (`NameError`). -/
def resolve_alldirusergroup_id (groups : List ZGroup) (name : String) :
    Except Err String :=
  match groups.getLast? with
  | none => .error .nameError
  | some gLast =>
      let ids := (groups.filter (fun g => g.name == name)).map (fun g => g.usrgrpid)
      let ids := ids ++ [gLast.usrgrpid]
      match ids.getLast? with
      | none => .error .indexError
      | some i => .ok i

/-- Model of `sync_users` lines 404-415: resolve the umbrella group id and fetch
its member list once, up front; with no umbrella configured both are
empty. -/
def umbrellaSetup (cfg : Config) (st : ZState) :
    Except Err (Option String × List String) :=
  match cfg.alldirusergroup with
  | none => .ok (none, [])
  | some name =>
      match resolve_alldirusergroup_id (get_groups st) name with
      | .error e => .error e
      | .ok gid => .ok (some gid, get_group_members st gid)

/-- Accumulator of the missing-users loop: events, state, and the
`zabbix_all_users` list (which the loop appends created users to). -/
structure MissingAcc where
  evs : List Event
  st : ZState
  allUsers : List String
deriving DecidableEq, Repr

/-- One iteration of the missing-users loop (`sync_users` lines
447-477): create the account when the username is unknown anywhere
(log once per `user_opt` entry; attribute lookups always run; the
creation call is suppressed on dry-run; the username is appended to
`zabbix_all_users` either way), else log and — unless dry-run — add the
existing account to the group. -/
def syncMissingStep (cfg : Config) (d : Dir) (ldap_users : List (String × String))
    (gname gid : String) (roleId : Option String) (acc : MissingAcc)
    (each_user : String) : MissingAcc :=
  if !(acc.allUsers.contains each_user) then
    let logs := cfg.user_opt.map (fun _ => Event.log (.createUser each_user gname))
    let dn := strOfOptId (List.lookup each_user ldap_users)
    let name := (dir_givenName d dn).getD ""
    let surname := (dir_sn d dn).getD ""
    if cfg.dryrun then
      ⟨acc.evs ++ logs, acc.st, acc.allUsers ++ [each_user]⟩
    else
      let r := create_user acc.st each_user name surname gid roleId
      ⟨acc.evs ++ logs ++ r.1, r.2, acc.allUsers ++ [each_user]⟩
  else
    let logs := [Event.log (.addToGroup each_user gname)]
    if cfg.dryrun then ⟨acc.evs ++ logs, acc.st, acc.allUsers⟩
    else
      let r := update_user cfg acc.st each_user gid
      ⟨acc.evs ++ logs ++ r.1, r.2, acc.allUsers⟩

/-- One iteration of the umbrella-group loop (`sync_users` lines
483-485): log, then call `update_user` — note: the call itself is not
gated on dry-run here; only the RPC inside `update_user` is. -/
def syncUmbrellaStep (cfg : Config) (umbName umbId : String)
    (acc : List Event × ZState) (u : String) : List Event × ZState :=
  let r := update_user cfg acc.2 u umbId
  (acc.1 ++ [Event.log (.addToGroup u umbName)] ++ r.1, r.2)

/-- One iteration of the absent-users loop (`sync_users` lines
492-511): skip users outside the umbrella member snapshot; else delete
the account when `deleteorphans` (deletion failures are caught), else
remove it from the group when `removeabsent`, else log only. -/
def syncAbsentStep (cfg : Config) (umbUsers : List String) (gid : String)
    (acc : List Event × ZState) (u : String) : List Event × ZState :=
  if !(umbUsers.contains u) then acc
  else if cfg.deleteorphans then
    if cfg.dryrun then (acc.1 ++ [Event.log (.deleteUser u)], acc.2)
    else
      let r := delete_user acc.2 u
      (acc.1 ++ [Event.log (.deleteUser u)] ++ r.1, r.2)
  else if cfg.removeabsent then
    if cfg.dryrun then (acc.1 ++ [Event.log (.removeFromGroup u)], acc.2)
    else
      let r := remove_user cfg acc.2 u gid
      (acc.1 ++ [Event.log (.removeFromGroup u)] ++ r.1, r.2)
  else acc

/-- Model of `sync_users` lines 517-527: scan `media_opt`, set `onlycreate` from
its entry, and convert the `severity` entry (which may raise
InvalidSeverity). -/
def mediaOptFiltered (cfg : Config) : Except Err (Bool × List (String × String)) :=
  cfg.media_opt.foldlM
    (fun (acc : Bool × List (String × String)) p =>
      let oc := if p.1 == "onlycreate" && pyLower p.2 == "true" then true else acc.1
      if p.1 == "severity" then
        match convert_severity p.2 with
        | .error e => .error e
        | .ok cv => .ok (oc, acc.2 ++ [(p.1, cv)])
      else .ok (oc, acc.2 ++ [(p.1, p.2)]))
    (false, [])

/-- One iteration of the media loop (`sync_users` lines 536-551).  The
username is lowercased unless `preserve_accountids`; when a media
attribute is configured, `ldap_users[each_user]` is read *before* the
absent-set check — a user present in the group but not in the
directory dict raises `KeyError` here.  The media upsert (and its log
line) happen only for non-absent users with an address, and only
outside dry-run. -/
def syncMediaOne (cfg : Config) (d : Dir) (ldap_users : List (String × String))
    (absent : List String) (mof : List (String × String)) (acc : Out)
    (u : String) : Out :=
  match cfg.ldap_media with
  | none => acc
  | some attr =>
      match List.lookup u ldap_users with
      | none => ⟨acc.evs, acc.st, some (.keyError u)⟩
      | some dn =>
          if !(absent.contains u) && (dir_media d dn attr).isSome && !cfg.dryrun then
            match update_media cfg acc.st u cfg.media_name
                ((dir_media d dn attr).getD "") mof with
            | .error e => ⟨acc.evs ++ [Event.log (.updateMedia u)], acc.st, some e⟩
            | .ok r =>
                ⟨acc.evs ++ [Event.log (.updateMedia u)] ++ r.1, r.2, none⟩
          else acc

def syncMediaStep (cfg : Config) (d : Dir) (ldap_users : List (String × String))
    (absent : List String) (mof : List (String × String)) (acc : Out)
    (u0 : String) : Out :=
  match acc.err with
  | some _ => acc
  | none =>
      syncMediaOne cfg d ldap_users absent mof acc
        (if cfg.preserve_accountids then u0 else pyLower u0)

/-- The missing-users loop of a group pass (`sync_users` lines
444-477). -/
def runMissing (cfg : Config) (d : Dir) (ldap_users : List (String × String))
    (gname gid : String) (roleId : Option String) (allUsers : List String)
    (missing : List String) (st : ZState) : MissingAcc :=
  missing.foldl (syncMissingStep cfg d ldap_users gname gid roleId) ⟨[], st, allUsers⟩

/-- The umbrella-group loop of a group pass (`sync_users` lines
479-485); skipped when no umbrella id was resolved. -/
def runUmbrella (cfg : Config) (umbId : Option String) (toAdd : List String)
    (st : ZState) : List Event × ZState :=
  match umbId with
  | some uid =>
      toAdd.foldl (syncUmbrellaStep cfg ((cfg.alldirusergroup).getD "") uid) ([], st)
  | none => ([], st)

/-- The absent-users loop of a group pass (`sync_users` lines
487-511). -/
def runAbsent (cfg : Config) (umbUsers : List String) (gid : String)
    (absent : List String) (st : ZState) : List Event × ZState :=
  absent.foldl (syncAbsentStep cfg umbUsers gid) ([], st)

/-- The media loop of a group pass (`sync_users` lines 536-551). -/
def runMedia (cfg : Config) (d : Dir) (ldap_users : List (String × String))
    (absent : List String) (mof : List (String × String)) (users : List String)
    (st : ZState) : Out :=
  (pySet users).foldl (syncMediaStep cfg d ldap_users absent mof) ⟨[], st, none⟩

/-- One pass of `sync_users` over a configured group specification
(lines 417-552). -/
def groupPass (cfg : Config) (d : Dir) (umbId : Option String)
    (umbUsers : List String) (spec : String) (st : ZState) : Out :=
  let gs := get_group_spec spec
  let group_name := gs.1
  let role_id := gs.2
  let zabbix_all_users := get_users_names cfg st
  match dir_get_group_members d group_name with
  | none => ⟨[], st, some .attributeError⟩
  | some raw =>
      let ldap_users := ldapUsersOf cfg raw
      if ldap_users.isEmpty && !cfg.deleteorphans && !cfg.removeabsent then
        ⟨[], st, none⟩
      else
        let gidMatches :=
          ((get_groups st).filter (fun g => g.name == group_name)).map (fun g => g.usrgrpid)
        match gidMatches.getLast? with
        | none => ⟨[], st, some .indexError⟩
        | some zabbix_group_id =>
            let zabbix_group_users := get_group_members st zabbix_group_id
            let ldapKeys := ldap_users.map (fun p => p.1)
            let missing_users := setDiff ldapKeys zabbix_group_users
            let m := runMissing cfg d ldap_users group_name zabbix_group_id role_id
              zabbix_all_users missing_users st
            let ru := runUmbrella cfg umbId (setDiff ldapKeys umbUsers) m.st
            let absent_users := setDiff zabbix_group_users ldapKeys
            let ra := runAbsent cfg umbUsers zabbix_group_id absent_users ru.2
            match mediaOptFiltered cfg with
            | .error e => ⟨m.evs ++ ru.1 ++ ra.1, ra.2, some e⟩
            | .ok ocmof =>
                let media_users :=
                  if ocmof.1 then missing_users
                  else get_group_members ra.2 zabbix_group_id
                let rm := runMedia cfg d ldap_users absent_users ocmof.2 media_users ra.2
                ⟨m.evs ++ ru.1 ++ ra.1 ++ rm.evs, rm.st, rm.err⟩

/-- Fold step over the configured groups: an uncaught exception aborts
the whole run (remaining groups unprocessed). -/
def syncGroupsFold (cfg : Config) (d : Dir) (umbId : Option String)
    (umbUsers : List String) (acc : Out) (spec : String) : Out :=
  match acc.err with
  | some _ => acc
  | none =>
      let o := groupPass cfg d umbId umbUsers spec acc.st
      ⟨acc.evs ++ o.evs, o.st, o.err⟩

/-- Model of `ZabbixConn.sync_users`: umbrella setup once, then one pass per
configured group specification. -/
def sync_users (cfg : Config) (d : Dir) (st : ZState) : Out :=
  match umbrellaSetup cfg st with
  | .error e => ⟨[], st, some e⟩
  | .ok u => cfg.ldap_groups.foldl (syncGroupsFold cfg d u.1 u.2) ⟨[], st, none⟩

/-! ### Event projections -/

/-- The mutating TargetClient calls of an event trace. -/
def mutCalls (evs : List Event) : List Rpc :=
  evs.filterMap (fun e => match e with | .rpc r => some r | .log _ => none)

/-- The intended-action log lines of an event trace. -/
def actionLogs (evs : List Event) : List LogAct :=
  evs.filterMap (fun e => match e with | .log a => some a | .rpc _ => none)

/-- Is an RPC one of the account/membership administration calls
(create account, delete account, group-membership update or massadd)? -/
def isAdminRpc : Rpc → Bool
  | .userCreate _ _ _ _ _ => true
  | .userDelete _ => true
  | .usergroupUpdate _ _ => true
  | .usergroupMassadd _ _ => true
  | .usergroupCreate _ => true
  | .userUpdateMedia _ _ => false
  | .userDeleteMedia _ => false

/-- The create/add/remove/delete calls of a trace (media excluded). -/
def adminCalls (evs : List Event) : List Rpc :=
  (mutCalls evs).filter isAdminRpc

/-! ### Concrete scenarios -/

/-- A baseline configuration: non-dry run, case folding on, one
configured group, no umbrella group, no removal policy, no media. -/
def cfg0 : Config :=
  { dryrun := false, preserve_accountids := false, alldirusergroup := none,
    ldap_groups := ["ops"], deleteorphans := false, removeabsent := false,
    ldap_media := none, media_name := "Email", media_opt := [],
    user_opt := [("show_password", "false")], apiVersion := "5.0" }

/-- Configuration listing a group that the directory does not know. -/
def cfgGhost : Config := { cfg0 with ldap_groups := ["ghost", "ops"] }

/-- Target state for the NotFound scenario. -/
def stGhost : ZState :=
  { users := [⟨"5", "alice"⟩], groups := [⟨"ghost", "1"⟩, ⟨"ops", "2"⟩],
    membership := [], mediatypes := [], medias := [], nextId := 10 }

/-- Directory snapshot without the group "ghost". -/
def dirGhost : Dir :=
  { groupMembers := [("ops", [("alice", "dnA")])], givenName := [], sn := [], media := [] }

/-- Configuration with a media attribute configured. -/
def cfgMediaAbsent : Config := { cfg0 with ldap_media := some "mail" }

/-- Target state where the group "ops" contains alice and carol. -/
def stMediaAbsent : ZState :=
  { users := [⟨"5", "alice"⟩, ⟨"7", "carol"⟩], groups := [⟨"ops", "1"⟩],
    membership := [("1", "5"), ("1", "7")], mediatypes := [("Email", "10")],
    medias := [], nextId := 20 }

/-- Directory snapshot where "ops" contains only alice (carol is
absent). -/
def dirMediaAbsent : Dir :=
  { groupMembers := [("ops", [("alice", "dnA")])], givenName := [], sn := [],
    media := [(("dnA", "mail"), "a@x")] }

/-- Configuration with the umbrella group "Umbrella" configured. -/
def cfgUmbWrong : Config := { cfg0 with alldirusergroup := some "Umbrella" }

/-- Target state where the group named "Umbrella" (id 1) is not the
last group returned by `get_groups` (the last is "Other", id 3). -/
def stUmbWrong : ZState :=
  { users := [⟨"5", "bob"⟩], groups := [⟨"Umbrella", "1"⟩, ⟨"ops", "2"⟩, ⟨"Other", "3"⟩],
    membership := [("2", "5")], mediatypes := [], medias := [], nextId := 60 }

/-- Directory snapshot where "ops" contains bob. -/
def dirUmbWrong : Dir :=
  { groupMembers := [("ops", [("bob", "dnB")])], givenName := [], sn := [], media := [] }

/-- Target state with bob (id 5) a member of group 1. -/
def stVer : ZState :=
  { users := [⟨"5", "bob"⟩], groups := [⟨"g", "1"⟩],
    membership := [("1", "5")], mediatypes := [], medias := [], nextId := 70 }

/-- Configuration reporting target apiVersion "10.0". -/
def cfgV10 : Config := { cfg0 with apiVersion := "10.0" }

/-- Target state where alice (id 5) is the only account, a member of
"ops" (id 1), with a media type "Email" configured. -/
def stMediaOk : ZState :=
  { users := [⟨"5", "alice"⟩], groups := [⟨"ops", "1"⟩],
    membership := [("1", "5")], mediatypes := [("Email", "10")],
    medias := [], nextId := 40 }

/-- The media-configured run of `cfgMediaAbsent`, in dry-run mode. -/
def cfgMediaDry : Config := { cfgMediaAbsent with dryrun := true }

/-- Is an event something other than an account deletion RPC or a
delete/remove intended-action log line? -/
def nonDestructiveEvent : Event → Bool
  | .rpc (.userDelete _) => false
  | .log (.deleteUser _) => false
  | .log (.removeFromGroup _) => false
  | _ => true

/-- State refinement: every account of `st`, and each of its group
memberships, survives into `st'`. -/
def Preserves (st st' : ZState) : Prop :=
  (∀ u : ZUser, u ∈ st.users → u ∈ st'.users) ∧
  (∀ u : ZUser, u ∈ st.users → ∀ g : String,
      (g, u.userid) ∈ st.membership → (g, u.userid) ∈ st'.membership)

/-- The baseline configuration with delete-orphans switched on (still
no umbrella group). -/
def cfgOrphans : Config := { cfg0 with deleteorphans := true }

/-- Target state where the stored username "Alice" is mixed-case and a
member of group "ops" (id 1). -/
def stCase : ZState :=
  { users := [⟨"5", "Alice"⟩], groups := [⟨"ops", "1"⟩],
    membership := [("1", "5")], mediatypes := [], medias := [], nextId := 30 }

/-- Directory snapshot where "ops" contains the identity "Alice". -/
def dirCase : Dir :=
  { groupMembers := [("ops", [("Alice", "dnA")])], givenName := [], sn := [], media := [] }

/-- Well-formedness of the target-account table: usernames pairwise
distinct and already lowercase (the normal form the sync itself
produces when case folding is on). -/
def WFUsers (st : ZState) : Prop :=
  st.users.Pairwise (fun a b => a.username ≠ b.username) ∧
  ∀ u ∈ st.users, pyLower u.username = u.username

/-- Invariant of the missing-users loop accumulator: well-formed users,
the running all-users list mirrors the usernames, and the group table
is untouched. -/
def MInv (gs0 : List ZGroup) (acc : MissingAcc) : Prop :=
  WFUsers acc.st ∧ acc.allUsers = acc.st.users.map (fun u => u.username) ∧
    acc.st.groups = gs0

/-- The raw directory member map a group pass starts from. -/
def ldapRawOf (d : Dir) (spec : String) : Option (List (String × String)) :=
  dir_get_group_members d (get_group_spec spec).1

/-- The group id a pass resolves for a specification (last match wins,
as the umbrella-style lookup does). -/
def gidOf (gs : List ZGroup) (spec : String) : Option String :=
  ((gs.filter (fun g => g.name == (get_group_spec spec).1)).map
    (fun g => g.usrgrpid)).getLast?

/-- The early-exit guard of a group pass: empty directory set and no
removal policy. -/
def guardSkip (cfg : Config) (raw : List (String × String)) : Bool :=
  (ldapUsersOf cfg raw).isEmpty && !cfg.deleteorphans && !cfg.removeabsent

/-- Post-condition of one group pass on a well-formed state: the raw
directory set was found and either the guard skipped the pass, or every
directory-derived key ended up in the resolved group (and, when an
umbrella group is configured, also in the umbrella group unless it was
already a member before the run). -/
def PostG (cfg : Config) (d : Dir) (gs0 : List ZGroup) (umbId : Option String)
    (umbUsers : List String) (spec : String) (s : ZState) : Prop :=
  ∃ raw, ldapRawOf d spec = some raw ∧
    (guardSkip cfg raw = true ∨
      (∃ gid, gidOf gs0 spec = some gid ∧
        ∀ k ∈ (ldapUsersOf cfg raw).map Prod.fst,
          k ∈ get_group_members s gid ∧
          ∀ uid, umbId = some uid → ¬ k ∈ umbUsers → k ∈ get_group_members s uid))

/-- Pre-condition under which a group pass issues no account or
membership administration call: every directory-derived key is already
in the resolved group, and in the umbrella member list when an umbrella
group is configured. -/
def NoAdminPre (cfg : Config) (d : Dir) (umbId : Option String)
    (umbUsers : List String) (spec : String) (s : ZState) : Prop :=
  ∃ raw, ldapRawOf d spec = some raw ∧
    (guardSkip cfg raw = true ∨
      (∃ gid, gidOf s.groups spec = some gid ∧
        (∀ k ∈ (ldapUsersOf cfg raw).map Prod.fst, k ∈ get_group_members s gid) ∧
        (∀ uid, umbId = some uid →
          ∀ k ∈ (ldapUsersOf cfg raw).map Prod.fst, k ∈ umbUsers)))

/-- A well-formed single-user state on which reconciliation is
idempotent. -/
def stIdem : ZState :=
  { users := [⟨"5", "alice"⟩], groups := [⟨"ops", "1"⟩],
    membership := [], mediatypes := [], medias := [], nextId := 40 }

/-! ### Theorems -/

/-! Generic list helper lemmas. -/

theorem dropWhile_eq_self_of_all {α} (p : α → Bool) (l : List α)
    (h : ∀ x ∈ l, p x = false) : l.dropWhile p = l := by
  cases l with
  | nil => rfl
  | cons a t => simp [List.dropWhile_cons, h a (List.mem_cons_self a t)]

theorem takeWhile_append_of_all {α} (p : α → Bool) (l₁ l₂ : List α)
    (h : ∀ x ∈ l₁, p x = true) : (l₁ ++ l₂).takeWhile p = l₁ ++ l₂.takeWhile p := by
  induction l₁ with
  | nil => simp
  | cons a t ih =>
      simp only [List.cons_append, List.takeWhile_cons, h a (List.mem_cons_self a t), if_true]
      simp [ih (fun x hx => h x (List.mem_cons_of_mem a hx))]

theorem dropWhile_append_of_all {α} (p : α → Bool) (l₁ l₂ : List α)
    (h : ∀ x ∈ l₁, p x = true) : (l₁ ++ l₂).dropWhile p = l₂.dropWhile p := by
  induction l₁ with
  | nil => simp
  | cons a t ih =>
      simp only [List.cons_append, List.dropWhile_cons, h a (List.mem_cons_self a t), if_true]
      exact ih (fun x hx => h x (List.mem_cons_of_mem a hx))

theorem digit_not_whitespace (c : Char) (h : c.isDigit = true) : c.isWhitespace = false := by
  by_contra hw
  simp only [Bool.not_eq_false] at hw
  simp only [Char.isWhitespace, Bool.or_eq_true, decide_eq_true_eq] at hw
  rcases hw with ((h1 | h1) | h1) | h1 <;> subst h1 <;> exact absurd h (by decide)

theorem pyStrip_of_digits (ds : List Char) (h : ∀ x ∈ ds, x.isDigit = true) :
    pyStrip (String.mk ds) = String.mk ds := by
  unfold pyStrip
  have h1 : ds.dropWhile Char.isWhitespace = ds :=
    dropWhile_eq_self_of_all _ _ (fun x hx => digit_not_whitespace x (h x hx))
  have h2 : ds.reverse.dropWhile Char.isWhitespace = ds.reverse :=
    dropWhile_eq_self_of_all _ _
      (fun x hx => digit_not_whitespace x (h x (List.mem_reverse.mp hx)))
  simp [h1, h2]

/-! Keys of a Python dict come from the inserted pairs. -/

theorem dinsert_keys_sub {α} (l : List (String × α)) (k : String) (v : α) :
    ∀ x ∈ (dinsert l k v).map Prod.fst, x ∈ l.map Prod.fst ∨ x = k := by
  intro x hx
  unfold dinsert at hx
  split at hx
  · simp only [List.map_map, List.mem_map, Function.comp] at hx
    obtain ⟨p, hp, hpx⟩ := hx
    by_cases hk : p.1 == k
    · rw [if_pos hk] at hpx
      right; exact hpx.symm ▸ rfl
    · rw [if_neg hk] at hpx
      left; exact List.mem_map.mpr ⟨p, hp, hpx⟩
  · simp only [List.map_append, List.mem_append, List.map_cons, List.map_nil,
      List.mem_singleton] at hx
    rcases hx with h1 | h1
    · left; exact h1
    · right; exact h1

theorem dictOf_keys {α} (l : List (String × α)) :
    ∀ x ∈ (dictOf l).map Prod.fst, x ∈ l.map Prod.fst := by
  suffices h : ∀ acc, ∀ x ∈ ((l.foldl (fun a p => dinsert a p.1 p.2) acc).map Prod.fst),
      x ∈ acc.map Prod.fst ∨ x ∈ l.map Prod.fst by
    intro x hx
    rcases h [] x hx with h1 | h1
    · simp at h1
    · exact h1
  induction l with
  | nil => intro acc x hx; left; exact hx
  | cons p t ih =>
      intro acc x hx
      simp only [List.foldl_cons] at hx
      rcases ih (dinsert acc p.1 p.2) x hx with h1 | h1
      · rcases dinsert_keys_sub acc p.1 p.2 x h1 with h2 | h2
        · left; exact h2
        · right; simp [h2]
      · right; simp [h1]

/-! Characterisation of the group-spec parser. -/

theorem gs_none (s : String) (h : (get_group_spec s).2 = none) :
    (get_group_spec s).1 = s := by
  unfold get_group_spec at *
  rcases hsp : splitTrailingDigits s with ⟨name, dd⟩
  cases dd with
  | none => simp [hsp]
  | some ds => simp [hsp] at h

theorem gs_some (s n d : String) (h : get_group_spec s = (n, some d)) :
    d.data ≠ [] ∧ d.data.all Char.isDigit = true ∧
      ∃ p, p ≠ [] ∧ s.data = p ++ ':' :: d.data ∧ n = pyStrip (String.mk p) := by
  unfold get_group_spec at h
  rcases hsp : splitTrailingDigits s with ⟨name, dd⟩
  rw [hsp] at h
  cases dd with
  | none => simp at h
  | some ds0 =>
    simp only [Prod.mk.injEq, Option.some.injEq] at h
    obtain ⟨hn, hd⟩ := h
    unfold splitTrailingDigits at hsp
    have hsplit := List.takeWhile_append_dropWhile (p := Char.isDigit) (l := s.data.reverse)
    cases htk : s.data.reverse.takeWhile Char.isDigit with
    | nil => rw [htk] at hsp; simp at hsp
    | cons x xs =>
      cases hdr : s.data.reverse.dropWhile Char.isDigit with
      | nil => rw [htk, hdr] at hsp; simp at hsp
      | cons c tl =>
        cases tl with
        | nil => rw [htk, hdr] at hsp; simp at hsp
        | cons r rs =>
          rw [htk, hdr] at hsp hsplit
          by_cases hc : c = ':'
          · subst hc
            simp only [if_pos rfl, Prod.mk.injEq, Option.some.injEq] at hsp
            obtain ⟨hname, hds0⟩ := hsp
            have hdig : ∀ y ∈ x :: xs, y.isDigit = true := by
              intro y hy
              rw [← htk] at hy
              exact List.mem_takeWhile_imp hy
            have hdval : d = String.mk ((x :: xs).reverse) := by
              rw [← hd]
              exact pyStrip_of_digits _ (fun y hy => hdig y (List.mem_reverse.mp hy))
            refine ⟨?_, ?_, (r :: rs).reverse, by simp, ?_, ?_⟩
            · rw [hdval]; simp
            · rw [hdval]
              simp only [List.all_eq_true]
              intro y hy
              exact hdig y (List.mem_reverse.mp hy)
            · have hs : s.data = ((x :: xs) ++ ':' :: r :: rs).reverse := by
                rw [hsplit]; simp
              rw [hs, hdval]
              simp
            · exact hn.symm
          · simp [hc] at hsp

theorem gs_complete (p ds : List Char) (hp : p ≠ []) (hds : ds ≠ [])
    (hdig : ∀ x ∈ ds, x.isDigit = true) :
    get_group_spec (String.mk (p ++ ':' :: ds)) = (pyStrip (String.mk p), some (String.mk ds)) := by
  unfold get_group_spec splitTrailingDigits
  have hdata : (String.mk (p ++ ':' :: ds)).data = p ++ ':' :: ds := rfl
  rw [hdata]
  have hrev : (p ++ ':' :: ds).reverse = ds.reverse ++ ':' :: p.reverse := by simp
  have htk : (p ++ ':' :: ds).reverse.takeWhile Char.isDigit = ds.reverse := by
    rw [hrev, takeWhile_append_of_all _ _ _ (fun x hx => hdig x (List.mem_reverse.mp hx))]
    simp [List.takeWhile_cons]
  have hdr : (p ++ ':' :: ds).reverse.dropWhile Char.isDigit = ':' :: p.reverse := by
    rw [hrev, dropWhile_append_of_all _ _ _ (fun x hx => hdig x (List.mem_reverse.mp hx))]
    simp [List.dropWhile_cons]
  rcases List.exists_cons_of_ne_nil (fun hrev0 => hds (by simpa using hrev0) :
      ds.reverse ≠ []) with ⟨y, ys, hys⟩
  rcases List.exists_cons_of_ne_nil (fun hrev0 => hp (by simpa using hrev0) :
      p.reverse ≠ []) with ⟨r, rs, hrs⟩
  rw [htk, hdr, hys, hrs]
  simp only [if_pos rfl]
  have h1 : (r :: rs).reverse = p := by rw [← hrs]; simp
  have h2 : (y :: ys).reverse = ds := by rw [← hys]; simp
  rw [h1, h2]
  simp [pyStrip_of_digits ds hdig]

/-- C3.  The claim states that the umbrella group id resolved at the
start of `sync_users` is the id of the group whose name equals the
configured umbrella name.  The code (lines 405-410) appends the loop
variable's id once more after the lookup loop and then `pop()`s, so the
resolved id is always the id of the *last* group `get_groups()`
returned — here "3" (group "Other") although the group named
"Umbrella" has id "1" — and the directory users are then added to that
wrong group ("1", bob's id) never enters the membership. -/
theorem C3_umbrella_id_is_last_groups_id :
    resolve_alldirusergroup_id (get_groups stUmbWrong) "Umbrella" = .ok "3" ∧
    (get_groups stUmbWrong).map (fun g => (g.name, g.usrgrpid)) =
      [("Umbrella", "1"), ("ops", "2"), ("Other", "3")] ∧
    mutCalls (sync_users cfgUmbWrong dirUmbWrong stUmbWrong).evs =
      [.usergroupUpdate "3" ["5"]] ∧
    ("1", "5") ∉ (sync_users cfgUmbWrong dirUmbWrong stUmbWrong).st.membership ∧
    (sync_users cfgUmbWrong dirUmbWrong stUmbWrong).err = none := by
  decide

/-- C5.  The claim states that an identity in the absent set is skipped
without error and without any directory lookup keyed on it.  In the
code the media loop evaluates `ldap_users[each_user]` (line 541) before
the `each_user not in absent_users` check (line 546), so the absent
member carol — present in the target group, not in the directory dict
— raises an uncaught `KeyError` and aborts the run. -/
theorem C5_absent_user_media_lookup_keyerror :
    get_group_members stMediaAbsent "1" = ["alice", "carol"] ∧
    dir_get_group_members dirMediaAbsent "ops" = some [("alice", "dnA")] ∧
    (sync_users cfgMediaAbsent dirMediaAbsent stMediaAbsent).err =
      some (.keyError "carol") := by
  decide

/-- C6.  The claim states that a configured group the directory lookup
reports as NotFound is logged and skipped, continuing with the next
configured group.  In the code `sync_users` immediately calls
`.items()` on the `None` that `LDAPConn.get_group_members` returns, so
the run aborts with an `AttributeError`: no event is emitted, the
state is untouched, and the following group "ops" is never
processed. -/
theorem C6_notfound_group_aborts_run :
    sync_users cfgGhost dirGhost stGhost = ⟨[], stGhost, some .attributeError⟩ ∧
    dir_get_group_members dirGhost "ghost" = none ∧
    cfgGhost.ldap_groups = ["ghost", "ops"] := by
  decide

/-- C7 counterexample.  The claim says the encoder returns the input
unchanged *exactly when* the input is all digits.  `re.match(r"\d+")`
only anchors at the start, so "1a" — not all digits, and not a valid
severity name either — is nevertheless returned unchanged instead of
failing. -/
theorem C7_counterexample_prefix_digit_passthrough :
    convert_severity "1a" = .ok "1a" ∧
    "1a".data.all Char.isDigit = false ∧
    severityNames.contains "1a" = false := by
  decide

/-- C7 amended.  The severity encoder returns the stripped input
unchanged exactly when the stripped input *starts with* a digit (not
only when it is all digits); otherwise it is a comma-separated list of
names from the fixed ordered set, encoded as a 6-bit mask with Disaster
as the most significant bit, rendered in decimal; unknown names fail
with InvalidSeverity.  encode("Disaster") = "32", encode("42") = "42",
encode("Bogus") fails. -/
theorem C7_severity_encoder :
    (∀ s : String, startsWithDigit (pyStrip s) = true →
        convert_severity s = .ok (pyStrip s)) ∧
    convert_severity "Disaster" = .ok "32" ∧
    convert_severity "High" = .ok "16" ∧
    convert_severity "Average" = .ok "8" ∧
    convert_severity "Warning" = .ok "4" ∧
    convert_severity "Information" = .ok "2" ∧
    convert_severity "Not Classified" = .ok "1" ∧
    convert_severity "Disaster,High,Average,Warning,Information,Not Classified" = .ok "63" ∧
    convert_severity "High, Warning" = .ok "20" ∧
    convert_severity "42" = .ok "42" ∧
    convert_severity "Bogus" = .error (.invalidSeverity "Bogus") := by
  refine ⟨fun s h => ?_, by decide, by decide, by decide, by decide, by decide,
    by decide, by decide, by decide, by decide, by decide⟩
  unfold convert_severity
  simp [h]

/-- Witness for C7: the pass-through branch evaluated at "7". -/
theorem C7_severity_encoder_witness : convert_severity "7" = .ok "7" :=
  C7_severity_encoder.1 "7" (by decide)

/-- C8 counterexample.  The claim says add-to-group and remove use the
full-replace update on versions 3.4 and newer *including 10.0*, and
that a requested removal is issued on every supported version.  The
code compares version strings lexicographically, so "10.0" < "3.4":
`update_user` then issues the additive mass-add, and `remove_user`
falls into the versionless branch and issues nothing at all. -/
theorem C8_counterexample_version_ten :
    pyStrGE "10.0" "3.4" = false ∧
    (update_user cfgV10 stVer "bob" "1").1 = [.rpc (.usergroupMassadd "1" ["5"])] ∧
    (remove_user cfgV10 stVer "bob" "1").1 = [] := by
  decide

/-- C8 amended.  Membership updates are gated on a *lexicographic*
string comparison of the reported apiVersion with "3.4" (so "10.0"
counts as older): when the comparison succeeds, add and remove both
issue the full-replace usergroup update; when it fails, add issues the
additive-only mass-add and `remove_user` issues no call at all. -/
theorem C8_version_gated_membership (cfg : Config) (st : ZState) (u gid : String)
    (hdry : cfg.dryrun = false) :
    (pyStrGE cfg.apiVersion "3.4" = true →
      (update_user cfg st u gid).1 =
        [.rpc (.usergroupUpdate gid (addTargetIds st u gid))] ∧
      (remove_user cfg st u gid).1 =
        [.rpc (.usergroupUpdate gid (removeTargetIds st u gid))]) ∧
    (pyStrGE cfg.apiVersion "3.4" = false →
      (update_user cfg st u gid).1 =
        [.rpc (.usergroupMassadd gid [strOfOptId (get_user_id st u)])] ∧
      (remove_user cfg st u gid).1 = []) := by
  constructor <;> intro hv <;>
    simp [update_user, remove_user, hv, hdry]

/-- Witness for C8: the new-API branch on version "5.0". -/
theorem C8_version_gated_membership_witness :
    (update_user cfg0 stVer "bob" "1").1 =
      [.rpc (.usergroupUpdate "1" (addTargetIds stVer "bob" "1"))] ∧
    (remove_user cfg0 stVer "bob" "1").1 =
      [.rpc (.usergroupUpdate "1" (removeTargetIds stVer "bob" "1"))] :=
  (C8_version_gated_membership cfg0 stVer "bob" "1" rfl).1 (by decide)

/-- C9.  The group-spec parser: `parse("admins:3")` = ("admins", "3"),
`parse("admins")` = ("admins", none); whenever no role id is returned
the whole input is the name; whenever a role id is returned it is a
nonempty all-digit string split off behind the last colon, the prefix
before that colon is nonempty and (stripped) becomes the name; and
conversely every `name ++ ":" ++ digits` input is split that way.
There is no error case (the parser is a total function). -/
theorem C9_group_spec_split :
    get_group_spec "admins:3" = ("admins", some "3") ∧
    get_group_spec "admins" = ("admins", none) ∧
    (∀ s : String, (get_group_spec s).2 = none → (get_group_spec s).1 = s) ∧
    (∀ s n d : String, get_group_spec s = (n, some d) →
        d.data ≠ [] ∧ d.data.all Char.isDigit = true ∧
        ∃ p, p ≠ [] ∧ s.data = p ++ ':' :: d.data ∧ n = pyStrip (String.mk p)) ∧
    (∀ p ds : List Char, p ≠ [] → ds ≠ [] → (∀ x ∈ ds, x.isDigit = true) →
        get_group_spec (String.mk (p ++ ':' :: ds)) =
          (pyStrip (String.mk p), some (String.mk ds))) :=
  ⟨by decide, by decide, gs_none, gs_some, gs_complete⟩

/-- Witness for C9: the universal clauses evaluated at "ops" and at
"qa" ++ ":" ++ "7". -/
theorem C9_group_spec_split_witness :
    (get_group_spec "ops").1 = "ops" ∧
    get_group_spec (String.mk ("qa".data ++ ':' :: "7".data)) =
      (pyStrip (String.mk "qa".data), some (String.mk "7".data)) :=
  ⟨C9_group_spec_split.2.2.1 "ops" (by decide),
   C9_group_spec_split.2.2.2.2 "qa".data "7".data (by decide) (by decide)
     (by decide)⟩

/-- C2 counterexample.  The claim says that with preserve-account-ids
false every username in *both* compared sets is lowercase before
comparison.  `get_group_members` returns the stored usernames verbatim
(no folding), so the target-group member set used at lines 444/489
contains "Alice" while the directory set was folded to "alice": the
diff treats them as different users and `sync_users` re-issues a group
add for a user who is already in the group. -/
theorem C2_counterexample_unfolded_target_set :
    cfg0.preserve_accountids = false ∧
    get_group_members stCase "1" = ["Alice"] ∧
    pyLower "Alice" ≠ "Alice" ∧
    (ldapUsersOf cfg0 [("Alice", "dnA")]).map Prod.fst = ["alice"] ∧
    mutCalls (sync_users cfg0 dirCase stCase).evs = [.usergroupUpdate "1" ["5"]] ∧
    (sync_users cfg0 dirCase stCase).st = stCase := by
  decide

/-- C2 amended.  When preserve-account-ids is false the
directory-derived set is lowercased (every key is the `lower()` of some
directory identity) but the target-group member set used for the
missing/absent diffs keeps the stored target username verbatim — the
two compared sets do not share one case-folding policy.  When
preserve-account-ids is true, original case is preserved verbatim
end-to-end on both sides. -/
theorem C2_case_folding_policy (cfg : Config) (raw : List (String × String))
    (st : ZState) (gid n : String) :
    (cfg.preserve_accountids = false →
      ∀ k ∈ (ldapUsersOf cfg raw).map Prod.fst, ∃ k0 ∈ raw.map Prod.fst, k = pyLower k0) ∧
    (n ∈ get_group_members st gid → ∃ u ∈ st.users, u.username = n ∧
      st.membership.contains (gid, u.userid) = true) ∧
    (cfg.preserve_accountids = true →
      get_users_names cfg st = st.users.map (fun u => u.username) ∧
      ldapUsersOf cfg raw = dictOf raw) := by
  refine ⟨?_, ?_, ?_⟩
  · intro h k hk
    unfold ldapUsersOf at hk
    rw [h] at hk
    simp only [Bool.false_eq_true, if_false] at hk
    have := dictOf_keys _ k hk
    simp only [List.map_map, List.mem_map, Function.comp] at this
    obtain ⟨p, hp, hpk⟩ := this
    exact ⟨p.1, List.mem_map.mpr ⟨p, hp, rfl⟩, hpk.symm⟩
  · intro hn
    unfold get_group_members at hn
    simp only [List.mem_map, List.mem_filter] at hn
    obtain ⟨u, ⟨hu, hm⟩, hn⟩ := hn
    exact ⟨u, hu, hn, by simpa using hm⟩
  · intro h
    constructor
    · unfold get_users_names; rw [h]; simp
    · unfold ldapUsersOf; rw [h]; simp

/-- Witness for C2: the folded directory key "alice" comes from the
identity "Alice", and the target member "Alice" is returned verbatim
from the stored account. -/
theorem C2_case_folding_policy_witness :
    (∃ k0 ∈ ([("Alice", "dnA")] : List (String × String)).map Prod.fst,
        "alice" = pyLower k0) ∧
    (∃ u ∈ stCase.users, u.username = "Alice" ∧
        stCase.membership.contains ("1", u.userid) = true) :=
  ⟨(C2_case_folding_policy cfg0 [("Alice", "dnA")] stCase "1" "Alice").1 rfl
      "alice" (by decide),
   (C2_case_folding_policy cfg0 [("Alice", "dnA")] stCase "1" "Alice").2.1
      (by decide)⟩


/-! Dry-run machinery: a generic fold invariant and the fact that every
loop step of `sync_users` emits no RPC event when `dryrun` is set. -/

theorem foldl_eq_of_step {α β γ} (f : α → γ) (step : α → β → α) (l : List β) (a : α)
    (h : ∀ acc u, f (step acc u) = f acc) : f (l.foldl step a) = f a := by
  induction l generalizing a with
  | nil => rfl
  | cons x t ih => rw [List.foldl_cons, ih, h]

theorem mutCalls_append (a b : List Event) :
    mutCalls (a ++ b) = mutCalls a ++ mutCalls b := by
  simp [mutCalls]

theorem mutCalls_map_log {β} (f : β → LogAct) (l : List β) :
    mutCalls (l.map (fun x => Event.log (f x))) = [] := by
  simp [mutCalls]

theorem update_user_dry (cfg : Config) (st : ZState) (u g : String)
    (h : cfg.dryrun = true) : update_user cfg st u g = ([], st) := by
  unfold update_user
  by_cases hv : pyStrGE cfg.apiVersion "3.4" = true
  · simp [hv, h]
  · simp [hv, h]

theorem remove_user_dry (cfg : Config) (st : ZState) (u g : String)
    (h : cfg.dryrun = true) : remove_user cfg st u g = ([], st) := by
  unfold remove_user
  by_cases hv : pyStrGE cfg.apiVersion "3.4" = true
  · simp [hv, h]
  · simp [hv, h]

theorem syncMissingStep_dry_mut (cfg : Config) (d : Dir) (lu : List (String × String))
    (gname gid : String) (rid : Option String) (h : cfg.dryrun = true)
    (acc : MissingAcc) (u : String) :
    mutCalls (syncMissingStep cfg d lu gname gid rid acc u).evs = mutCalls acc.evs := by
  unfold syncMissingStep
  split <;> simp [h, mutCalls_append, mutCalls_map_log, mutCalls]

theorem syncUmbrellaStep_dry_mut (cfg : Config) (un ui : String) (h : cfg.dryrun = true)
    (acc : List Event × ZState) (u : String) :
    mutCalls (syncUmbrellaStep cfg un ui acc u).1 = mutCalls acc.1 := by
  unfold syncUmbrellaStep
  rw [update_user_dry cfg acc.2 u ui h]
  simp [mutCalls_append, mutCalls]

theorem syncAbsentStep_dry_mut (cfg : Config) (uu : List String) (gid : String)
    (h : cfg.dryrun = true) (acc : List Event × ZState) (u : String) :
    mutCalls (syncAbsentStep cfg uu gid acc u).1 = mutCalls acc.1 := by
  unfold syncAbsentStep
  split
  · rfl
  · split
    · simp [h, mutCalls_append, mutCalls]
    · split
      · simp [h, mutCalls_append, mutCalls]
      · rfl

theorem syncMediaOne_dry_mut (cfg : Config) (d : Dir) (lu : List (String × String))
    (ab : List String) (mof : List (String × String)) (h : cfg.dryrun = true)
    (acc : Out) (u : String) :
    mutCalls (syncMediaOne cfg d lu ab mof acc u).evs = mutCalls acc.evs := by
  unfold syncMediaOne
  simp only [h, Bool.not_true, Bool.and_false]
  split
  · rfl
  · split
    · rfl
    · simp

theorem syncMediaStep_dry_mut (cfg : Config) (d : Dir) (lu : List (String × String))
    (ab : List String) (mof : List (String × String)) (h : cfg.dryrun = true)
    (acc : Out) (u : String) :
    mutCalls (syncMediaStep cfg d lu ab mof acc u).evs = mutCalls acc.evs := by
  unfold syncMediaStep
  split
  · rfl
  · exact syncMediaOne_dry_mut cfg d lu ab mof h acc _

theorem runMissing_dry_mut (cfg : Config) (d : Dir) (lu : List (String × String))
    (gn gi : String) (rid : Option String) (au missing : List String) (st : ZState)
    (h : cfg.dryrun = true) :
    mutCalls (runMissing cfg d lu gn gi rid au missing st).evs = [] :=
  foldl_eq_of_step (fun (acc : MissingAcc) => mutCalls acc.evs) _ missing _
    (fun acc u => syncMissingStep_dry_mut cfg d lu gn gi rid h acc u)

theorem runUmbrella_dry_mut (cfg : Config) (umbId : Option String)
    (toAdd : List String) (st : ZState) (h : cfg.dryrun = true) :
    mutCalls (runUmbrella cfg umbId toAdd st).1 = [] := by
  unfold runUmbrella
  cases umbId with
  | none => rfl
  | some uid =>
      exact foldl_eq_of_step (fun (acc : List Event × ZState) => mutCalls acc.1) _ toAdd _
        (fun acc u => syncUmbrellaStep_dry_mut cfg _ uid h acc u)

theorem runAbsent_dry_mut (cfg : Config) (uu : List String) (gi : String)
    (absent : List String) (st : ZState) (h : cfg.dryrun = true) :
    mutCalls (runAbsent cfg uu gi absent st).1 = [] :=
  foldl_eq_of_step (fun (acc : List Event × ZState) => mutCalls acc.1) _ absent _
    (fun acc u => syncAbsentStep_dry_mut cfg uu gi h acc u)

theorem runMedia_dry_mut (cfg : Config) (d : Dir) (lu : List (String × String))
    (ab : List String) (mof : List (String × String)) (users : List String)
    (st : ZState) (h : cfg.dryrun = true) :
    mutCalls (runMedia cfg d lu ab mof users st).evs = [] :=
  foldl_eq_of_step (fun (acc : Out) => mutCalls acc.evs) _ (pySet users) _
    (fun acc u => syncMediaStep_dry_mut cfg d lu ab mof h acc u)

theorem groupPass_dry_mut (cfg : Config) (d : Dir) (umbId : Option String)
    (umbUsers : List String) (spec : String) (st : ZState) (h : cfg.dryrun = true) :
    mutCalls (groupPass cfg d umbId umbUsers spec st).evs = [] := by
  simp only [groupPass]
  split
  · rfl
  split
  · rfl
  split
  · rfl
  split <;>
    simp [mutCalls_append, runMissing_dry_mut, runUmbrella_dry_mut,
      runAbsent_dry_mut, runMedia_dry_mut, h]

/-- C1 counterexample.  The claim equates the dry-run logged
intended-action set with the non-dry mutating call set.  The media
upsert (and its log line) sit inside the `not self.dryrun` branch
(lines 546-549), so the non-dry run issues a media-update RPC here
while the identical dry run logs no intended action at all. -/
theorem C1_counterexample_media_not_logged_dry :
    actionLogs (sync_users cfgMediaDry dirMediaAbsent stMediaOk).evs = [] ∧
    mutCalls (sync_users cfgMediaDry dirMediaAbsent stMediaOk).evs = [] ∧
    mutCalls (sync_users cfgMediaAbsent dirMediaAbsent stMediaOk).evs =
      [.userUpdateMedia "5" (media_defaults "10" "a@x" [])] := by
  decide

/-- C1 amended.  For every configuration with the dry-run flag set and
every pair of directory/target snapshots, a run of `sync_users` issues
no mutating TargetClient call whatsoever (this also holds for runs that
abort with an exception: the partial trace is RPC-free).  The second
half of the original claim does not hold: the dry-run logged action set
can omit actions a real run performs — media upserts are logged only
inside the non-dry branch, and creation is logged once per `user_opt`
entry. -/
theorem C1_dry_run_issues_no_mutations (cfg : Config) (d : Dir) (st : ZState)
    (h : cfg.dryrun = true) :
    mutCalls (sync_users cfg d st).evs = [] := by
  unfold sync_users
  split
  · rfl
  · rename_i u hu
    have hstep : ∀ (acc : Out) (spec : String),
        mutCalls (syncGroupsFold cfg d u.1 u.2 acc spec).evs = mutCalls acc.evs := by
      intro acc spec
      unfold syncGroupsFold
      split
      · rfl
      · simp [mutCalls_append, groupPass_dry_mut cfg d u.1 u.2 spec acc.st h]
    rw [foldl_eq_of_step (fun (acc : Out) => mutCalls acc.evs) _ _ _ hstep]
    rfl
/-- Witness for C1: the dry-run media scenario issues no mutating
calls. -/
theorem C1_dry_run_issues_no_mutations_witness :
    mutCalls (sync_users cfgMediaDry dirMediaAbsent stMediaOk).evs = [] :=
  C1_dry_run_issues_no_mutations cfgMediaDry dirMediaAbsent stMediaOk rfl


/-! State-preservation machinery: without an umbrella group (or without
any removal policy), `sync_users` never deletes an account and never
shrinks a group. -/

theorem preserves_refl (st : ZState) : Preserves st st :=
  ⟨fun _ hu => hu, fun _ _ _ hm => hm⟩

theorem preserves_trans {a b c : ZState} (h1 : Preserves a b) (h2 : Preserves b c) :
    Preserves a c :=
  ⟨fun u hu => h2.1 u (h1.1 u hu),
   fun u hu g hm => h2.2 u (h1.1 u hu) g (h1.2 u hu g hm)⟩

theorem preserves_of_fields {st st' : ZState} (hu : st'.users = st.users)
    (hm : st'.membership = st.membership) : Preserves st st' :=
  ⟨fun u h => hu ▸ h, fun u _ g h => hm ▸ h⟩

theorem foldl_pred {α β} (P : α → Prop) (step : α → β → α) (l : List β) (a : α)
    (h : ∀ acc u, P acc → P (step acc u)) (ha : P a) : P (l.foldl step a) := by
  induction l generalizing a with
  | nil => exact ha
  | cons x t ih => exact ih _ (h a x ha)

theorem foldl_rel {α β} (f : α → ZState) (step : α → β → α) (l : List β) (a : α)
    (h : ∀ acc u, Preserves (f acc) (f (step acc u))) :
    Preserves (f a) (f (l.foldl step a)) := by
  induction l generalizing a with
  | nil => exact preserves_refl _
  | cons x t ih => exact preserves_trans (h a x) (ih (step a x))

theorem mem_groupMemberIds (st : ZState) (gid : String) (u : ZUser)
    (hu : u ∈ st.users) (hm : (gid, u.userid) ∈ st.membership) :
    u.userid ∈ groupMemberIds st gid := by
  unfold groupMemberIds
  refine List.mem_map.mpr ⟨u, List.mem_filter.mpr ⟨hu, ?_⟩, rfl⟩
  simpa using hm

theorem setGroupMembers_preserves (st : ZState) (gid : String) (ids : List String)
    (hsup : ∀ i ∈ groupMemberIds st gid, i ∈ ids) :
    Preserves st (setGroupMembers st gid ids) := by
  constructor
  · intro u hu; exact hu
  · intro u hu g hm
    unfold setGroupMembers
    simp only [List.mem_append]
    by_cases hg : g = gid
    · subst hg
      exact Or.inr (List.mem_map.mpr
        ⟨u.userid, hsup u.userid (mem_groupMemberIds st g u hu hm), rfl⟩)
    · refine Or.inl (List.mem_filter.mpr ⟨hm, ?_⟩)
      simpa using hg

theorem addGroupMembers_preserves (st : ZState) (gid : String) (ids : List String) :
    Preserves st (addGroupMembers st gid ids) := by
  constructor
  · intro u hu; exact hu
  · intro u _ g hm
    unfold addGroupMembers
    exact List.mem_append_left _ hm

theorem addTargetIds_sup (st : ZState) (u gid : String) :
    ∀ i ∈ groupMemberIds st gid, i ∈ addTargetIds st u gid := by
  intro i hi
  simp only [addTargetIds]
  split
  · exact hi
  · exact List.mem_append_left _ hi

theorem update_user_preserves (cfg : Config) (st : ZState) (u g : String) :
    Preserves st (update_user cfg st u g).2 := by
  unfold update_user
  by_cases hv : pyStrGE cfg.apiVersion "3.4" = true
  · by_cases hd : cfg.dryrun = true
    · simp only [hv, if_true, hd]
      exact preserves_refl st
    · simp only [hv, if_true, hd, Bool.false_eq_true, if_false]
      exact setGroupMembers_preserves st g _ (addTargetIds_sup st u g)
  · by_cases hd : cfg.dryrun = true
    · simp only [hv, Bool.false_eq_true, if_false, hd, if_true]
      exact preserves_refl st
    · simp only [hv, hd, Bool.false_eq_true, if_false]
      exact addGroupMembers_preserves st g _

theorem create_user_preserves (st : ZState) (username name surname gid : String)
    (roleId : Option String) :
    Preserves st (create_user st username name surname gid roleId).2 :=
  ⟨fun _ hu => List.mem_append_left _ hu,
   fun _ _ _ hm => List.mem_append_left _ hm⟩

theorem delete_media_preserves (st : ZState) (u desc : String)
    (r : List Event × ZState) (h : delete_media_by_description st u desc = .ok r) :
    r.2.users = st.users ∧ r.2.membership = st.membership := by
  unfold delete_media_by_description at h
  split at h
  · exact absurd h (by simp)
  · simp only [Except.ok.injEq] at h
    subst h
    exact ⟨rfl, rfl⟩

theorem update_media_preserves (cfg : Config) (st : ZState) (u desc sendto : String)
    (mo : List (String × String)) (r : List Event × ZState)
    (h : update_media cfg st u desc sendto mo = .ok r) : Preserves st r.2 := by
  unfold update_media at h
  split at h
  · exact absurd h (by simp)
  · split at h
    · simp only [Except.ok.injEq] at h
      subst h
      exact preserves_of_fields rfl rfl
    · split at h
      · exact absurd h (by simp)
      · rename_i evs2 st2 hr2
        simp only [Except.ok.injEq] at h
        subst h
        have hf := delete_media_preserves st u desc (evs2, st2) hr2
        exact preserves_of_fields hf.1 hf.2

theorem syncMissingStep_preserves (cfg : Config) (d : Dir)
    (lu : List (String × String)) (gname gid : String) (rid : Option String)
    (acc : MissingAcc) (u : String) :
    Preserves acc.st (syncMissingStep cfg d lu gname gid rid acc u).st := by
  unfold syncMissingStep
  split
  · by_cases hd : cfg.dryrun = true
    · simp only [hd, if_true]
      exact preserves_refl _
    · simp only [hd, Bool.false_eq_true, if_false]
      exact create_user_preserves acc.st u _ _ gid rid
  · by_cases hd : cfg.dryrun = true
    · simp only [hd, if_true]
      exact preserves_refl _
    · simp only [hd, Bool.false_eq_true, if_false]
      exact update_user_preserves cfg acc.st u gid

theorem syncUmbrellaStep_preserves (cfg : Config) (un ui : String)
    (acc : List Event × ZState) (u : String) :
    Preserves acc.2 (syncUmbrellaStep cfg un ui acc u).2 :=
  update_user_preserves cfg acc.2 u ui

theorem syncAbsentStep_id (cfg : Config) (uu : List String) (gid : String)
    (acc : List Event × ZState) (u : String)
    (h : uu = [] ∨ (cfg.deleteorphans = false ∧ cfg.removeabsent = false)) :
    syncAbsentStep cfg uu gid acc u = acc := by
  unfold syncAbsentStep
  rcases h with h | ⟨h1, h2⟩
  · subst h; simp
  · simp [h1, h2]

theorem syncMediaOne_preserves (cfg : Config) (d : Dir)
    (lu : List (String × String)) (ab : List String) (mof : List (String × String))
    (acc : Out) (u : String) :
    Preserves acc.st (syncMediaOne cfg d lu ab mof acc u).st := by
  unfold syncMediaOne
  split
  · exact preserves_refl _
  · split
    · exact preserves_refl _
    · rename_i o1 attr hattr o2 dn hdn
      by_cases hc : (!ab.contains u && (dir_media d dn attr).isSome && !cfg.dryrun) = true
      · simp only [hc, if_true]
        split
        · exact preserves_refl _
        · rename_i r hr
          exact update_media_preserves cfg acc.st _ cfg.media_name _ mof r hr
      · simp only [hc, Bool.false_eq_true, if_false]
        exact preserves_refl _

theorem syncMediaStep_preserves (cfg : Config) (d : Dir)
    (lu : List (String × String)) (ab : List String) (mof : List (String × String))
    (acc : Out) (u : String) :
    Preserves acc.st (syncMediaStep cfg d lu ab mof acc u).st := by
  unfold syncMediaStep
  split
  · exact preserves_refl _
  · exact syncMediaOne_preserves cfg d lu ab mof acc _

theorem foldl_id {α β} (step : α → β → α) (l : List β) (a : α)
    (h : ∀ acc u, step acc u = acc) : l.foldl step a = a :=
  foldl_eq_of_step id step l a h

theorem syncAbsentStep_preserves_of (cfg : Config) (uu : List String) (gid : String)
    (acc : List Event × ZState) (u : String)
    (h : uu = [] ∨ (cfg.deleteorphans = false ∧ cfg.removeabsent = false)) :
    Preserves acc.2 (syncAbsentStep cfg uu gid acc u).2 := by
  rw [syncAbsentStep_id cfg uu gid acc u h]
  exact preserves_refl _

theorem runMissing_preserves (cfg : Config) (d : Dir) (lu : List (String × String))
    (gn gi : String) (rid : Option String) (au missing : List String) (st : ZState) :
    Preserves st (runMissing cfg d lu gn gi rid au missing st).st :=
  foldl_rel (fun (acc : MissingAcc) => acc.st) _ missing ⟨[], st, au⟩
    (fun acc u => syncMissingStep_preserves cfg d lu gn gi rid acc u)

theorem runUmbrella_preserves (cfg : Config) (umbId : Option String)
    (toAdd : List String) (st : ZState) :
    Preserves st (runUmbrella cfg umbId toAdd st).2 := by
  unfold runUmbrella
  cases umbId with
  | none => exact preserves_refl st
  | some uid =>
      exact foldl_rel (fun (acc : List Event × ZState) => acc.2) _ toAdd ([], st)
        (fun acc u => syncUmbrellaStep_preserves cfg _ uid acc u)

theorem runAbsent_id (cfg : Config) (umbUsers : List String) (gid : String)
    (absent : List String) (st : ZState)
    (habs : umbUsers = [] ∨ (cfg.deleteorphans = false ∧ cfg.removeabsent = false)) :
    runAbsent cfg umbUsers gid absent st = ([], st) :=
  foldl_id _ absent _ (fun acc u => syncAbsentStep_id cfg umbUsers gid acc u habs)

theorem runAbsent_preserves_of (cfg : Config) (umbUsers : List String) (gid : String)
    (absent : List String) (st : ZState)
    (habs : umbUsers = [] ∨ (cfg.deleteorphans = false ∧ cfg.removeabsent = false)) :
    Preserves st (runAbsent cfg umbUsers gid absent st).2 := by
  rw [runAbsent_id cfg umbUsers gid absent st habs]
  exact preserves_refl st

theorem runMedia_preserves (cfg : Config) (d : Dir) (lu : List (String × String))
    (ab : List String) (mof : List (String × String)) (users : List String)
    (st : ZState) : Preserves st (runMedia cfg d lu ab mof users st).st :=
  foldl_rel (fun (acc : Out) => acc.st) _ (pySet users) ⟨[], st, none⟩
    (fun acc u => syncMediaStep_preserves cfg d lu ab mof acc u)

theorem groupPass_preserves (cfg : Config) (d : Dir) (umbId : Option String)
    (umbUsers : List String) (spec : String) (st : ZState)
    (habs : umbUsers = [] ∨ (cfg.deleteorphans = false ∧ cfg.removeabsent = false)) :
    Preserves st (groupPass cfg d umbId umbUsers spec st).st := by
  simp only [groupPass]
  split
  · exact preserves_refl _
  split
  · exact preserves_refl _
  split
  · exact preserves_refl _
  split
  · exact preserves_trans (runMissing_preserves cfg d _ _ _ _ _ _ st)
      (preserves_trans (runUmbrella_preserves cfg umbId _ _)
        (runAbsent_preserves_of cfg umbUsers _ _ _ habs))
  · exact preserves_trans (runMissing_preserves cfg d _ _ _ _ _ _ st)
      (preserves_trans (runUmbrella_preserves cfg umbId _ _)
        (preserves_trans (runAbsent_preserves_of cfg umbUsers _ _ _ habs)
          (runMedia_preserves cfg d _ _ _ _ _)))

theorem sync_users_preserves (cfg : Config) (d : Dir) (st : ZState)
    (hcond : cfg.alldirusergroup = none ∨
      (cfg.deleteorphans = false ∧ cfg.removeabsent = false)) :
    Preserves st (sync_users cfg d st).st := by
  unfold sync_users
  split
  · exact preserves_refl _
  · rename_i pr hpr
    have habs : pr.2 = [] ∨ (cfg.deleteorphans = false ∧ cfg.removeabsent = false) := by
      rcases hcond with h | h
      · left
        unfold umbrellaSetup at hpr
        rw [h] at hpr
        simp only [Except.ok.injEq] at hpr
        rw [← hpr]
      · right; exact h
    have hstep : ∀ (acc : Out) (spec : String),
        Preserves acc.st (syncGroupsFold cfg d pr.1 pr.2 acc spec).st := by
      intro acc spec
      unfold syncGroupsFold
      split
      · exact preserves_refl _
      · exact groupPass_preserves cfg d pr.1 pr.2 spec acc.st habs
    exact foldl_rel (fun (acc : Out) => acc.st) _ cfg.ldap_groups ⟨[], st, none⟩ hstep

theorem all_map_const_true {α} (p : Event → Bool) (e : Event) (he : p e = true)
    (l : List α) : (l.map (fun _ => e)).all p = true := by
  induction l with
  | nil => rfl
  | cons x t ih => simp [he, ih]

theorem update_user_nd (cfg : Config) (st : ZState) (u g : String) :
    (update_user cfg st u g).1.all nonDestructiveEvent = true := by
  unfold update_user
  by_cases hv : pyStrGE cfg.apiVersion "3.4" = true <;>
    by_cases hd : cfg.dryrun = true <;>
      simp [hv, hd, nonDestructiveEvent]

theorem delete_media_nd (st : ZState) (u desc : String) (r : List Event × ZState)
    (h : delete_media_by_description st u desc = .ok r) :
    r.1.all nonDestructiveEvent = true := by
  unfold delete_media_by_description at h
  split at h
  · exact absurd h (by simp)
  · simp only [Except.ok.injEq] at h
    subst h
    rw [List.all_eq_true]
    intro e he
    obtain ⟨m, _, rfl⟩ := List.mem_map.mp he
    rfl

theorem update_media_nd (cfg : Config) (st : ZState) (u desc sendto : String)
    (mo : List (String × String)) (r : List Event × ZState)
    (h : update_media cfg st u desc sendto mo = .ok r) :
    r.1.all nonDestructiveEvent = true := by
  unfold update_media at h
  split at h
  · exact absurd h (by simp)
  · split at h
    · simp only [Except.ok.injEq] at h
      subst h
      rfl
    · split at h
      · exact absurd h (by simp)
      · rename_i evs2 st2 hr2
        simp only [Except.ok.injEq] at h
        subst h
        simp [List.all_append, delete_media_nd st u desc (evs2, st2) hr2,
          nonDestructiveEvent]

theorem syncMissingStep_nd (cfg : Config) (d : Dir) (lu : List (String × String))
    (gn gi : String) (rid : Option String) (acc : MissingAcc) (u : String)
    (hp : acc.evs.all nonDestructiveEvent = true) :
    (syncMissingStep cfg d lu gn gi rid acc u).evs.all nonDestructiveEvent = true := by
  unfold syncMissingStep
  split
  · by_cases hd : cfg.dryrun = true <;>
      simp [hd, List.all_append, hp, create_user,
        all_map_const_true nonDestructiveEvent (Event.log (.createUser u gn)) rfl,
        nonDestructiveEvent]
  · by_cases hd : cfg.dryrun = true <;>
      simp [hd, List.all_append, hp, update_user_nd, nonDestructiveEvent]

theorem syncUmbrellaStep_nd (cfg : Config) (un ui : String)
    (acc : List Event × ZState) (u : String)
    (hp : acc.1.all nonDestructiveEvent = true) :
    (syncUmbrellaStep cfg un ui acc u).1.all nonDestructiveEvent = true := by
  unfold syncUmbrellaStep
  simp [List.all_append, hp, update_user_nd, nonDestructiveEvent]

theorem syncMediaOne_nd (cfg : Config) (d : Dir) (lu : List (String × String))
    (ab : List String) (mof : List (String × String)) (acc : Out) (u : String)
    (hp : acc.evs.all nonDestructiveEvent = true) :
    (syncMediaOne cfg d lu ab mof acc u).evs.all nonDestructiveEvent = true := by
  unfold syncMediaOne
  split
  · exact hp
  · split
    · exact hp
    · rename_i o1 attr hattr o2 dn hdn
      by_cases hc : (!ab.contains u && (dir_media d dn attr).isSome && !cfg.dryrun) = true
      · simp only [hc, if_true]
        split
        · simp [List.all_append, hp, nonDestructiveEvent]
        · rename_i r hr
          simp [List.all_append, hp, nonDestructiveEvent,
            update_media_nd cfg acc.st _ cfg.media_name _ mof r hr]
      · simp only [hc, Bool.false_eq_true, if_false]
        exact hp

theorem syncMediaStep_nd (cfg : Config) (d : Dir) (lu : List (String × String))
    (ab : List String) (mof : List (String × String)) (acc : Out) (u : String)
    (hp : acc.evs.all nonDestructiveEvent = true) :
    (syncMediaStep cfg d lu ab mof acc u).evs.all nonDestructiveEvent = true := by
  unfold syncMediaStep
  split
  · exact hp
  · exact syncMediaOne_nd cfg d lu ab mof acc _ hp

theorem runMissing_nd (cfg : Config) (d : Dir) (lu : List (String × String))
    (gn gi : String) (rid : Option String) (au missing : List String) (st : ZState) :
    (runMissing cfg d lu gn gi rid au missing st).evs.all nonDestructiveEvent = true :=
  foldl_pred (fun (acc : MissingAcc) => acc.evs.all nonDestructiveEvent = true) _
    missing ⟨[], st, au⟩ (fun acc u hp => syncMissingStep_nd cfg d lu gn gi rid acc u hp)
    rfl

theorem runUmbrella_nd (cfg : Config) (umbId : Option String) (toAdd : List String)
    (st : ZState) : (runUmbrella cfg umbId toAdd st).1.all nonDestructiveEvent = true := by
  unfold runUmbrella
  cases umbId with
  | none => rfl
  | some uid =>
      exact foldl_pred (fun (acc : List Event × ZState) =>
          acc.1.all nonDestructiveEvent = true) _ toAdd ([], st)
        (fun acc u hp => syncUmbrellaStep_nd cfg _ uid acc u hp) rfl

theorem runMedia_nd (cfg : Config) (d : Dir) (lu : List (String × String))
    (ab : List String) (mof : List (String × String)) (users : List String)
    (st : ZState) : (runMedia cfg d lu ab mof users st).evs.all nonDestructiveEvent = true :=
  foldl_pred (fun (acc : Out) => acc.evs.all nonDestructiveEvent = true) _
    (pySet users) ⟨[], st, none⟩
    (fun acc u hp => syncMediaStep_nd cfg d lu ab mof acc u hp) rfl

theorem groupPass_nd (cfg : Config) (d : Dir) (umbId : Option String)
    (umbUsers : List String) (spec : String) (st : ZState)
    (habs : umbUsers = [] ∨ (cfg.deleteorphans = false ∧ cfg.removeabsent = false)) :
    (groupPass cfg d umbId umbUsers spec st).evs.all nonDestructiveEvent = true := by
  simp only [groupPass]
  split
  · rfl
  split
  · rfl
  split
  · rfl
  split <;>
    simp [List.all_append, runMissing_nd, runUmbrella_nd, runMedia_nd,
      runAbsent_id cfg umbUsers _ _ _ habs]

theorem sync_users_nd (cfg : Config) (d : Dir) (st : ZState)
    (hcond : cfg.alldirusergroup = none ∨
      (cfg.deleteorphans = false ∧ cfg.removeabsent = false)) :
    (sync_users cfg d st).evs.all nonDestructiveEvent = true := by
  unfold sync_users
  split
  · rfl
  · rename_i pr hpr
    have habs : pr.2 = [] ∨ (cfg.deleteorphans = false ∧ cfg.removeabsent = false) := by
      rcases hcond with h | h
      · left
        unfold umbrellaSetup at hpr
        rw [h] at hpr
        simp only [Except.ok.injEq] at hpr
        rw [← hpr]
      · right; exact h
    refine foldl_pred (fun (acc : Out) => acc.evs.all nonDestructiveEvent = true) _
      cfg.ldap_groups ⟨[], st, none⟩ ?_ rfl
    intro acc spec hp
    unfold syncGroupsFold
    split
    · exact hp
    · simp [List.all_append, hp, groupPass_nd cfg d pr.1 pr.2 spec acc.st habs]

/-- C10.  If no umbrella (all-directory-users) group is configured, the
umbrella member snapshot is the empty list, and the `continue` at line
494 gates out every destructive action regardless of the delete-orphans
and remove-absent flags: every account and every group membership of
the initial target state survives the whole run, and the trace contains
no account-deletion RPC and no delete/remove intended-action log — so
absent users are at most logged. -/
theorem C10_empty_umbrella_blocks_destruction (cfg : Config) (d : Dir) (st : ZState)
    (h : cfg.alldirusergroup = none) :
    (∀ u : ZUser, u ∈ st.users → u ∈ (sync_users cfg d st).st.users) ∧
    (∀ u : ZUser, u ∈ st.users → ∀ g : String, (g, u.userid) ∈ st.membership →
        (g, u.userid) ∈ (sync_users cfg d st).st.membership) ∧
    (sync_users cfg d st).evs.all nonDestructiveEvent = true := by
  have hp := sync_users_preserves cfg d st (Or.inl h)
  exact ⟨hp.1, hp.2, sync_users_nd cfg d st (Or.inl h)⟩

/-- Witness for C10: with delete-orphans set but no umbrella group, the
absent mixed-case account "Alice" survives with its membership. -/
theorem C10_empty_umbrella_blocks_destruction_witness :
    ((⟨"5", "Alice"⟩ : ZUser) ∈ (sync_users cfgOrphans dirCase stCase).st.users) ∧
    ("1", "5") ∈ (sync_users cfgOrphans dirCase stCase).st.membership ∧
    (sync_users cfgOrphans dirCase stCase).evs.all nonDestructiveEvent = true :=
  ⟨(C10_empty_umbrella_blocks_destruction cfgOrphans dirCase stCase rfl).1
      ⟨"5", "Alice"⟩ (by decide),
   (C10_empty_umbrella_blocks_destruction cfgOrphans dirCase stCase rfl).2.1
      ⟨"5", "Alice"⟩ (by decide) "1" (by decide),
   (C10_empty_umbrella_blocks_destruction cfgOrphans dirCase stCase rfl).2.2⟩


/-! Lemmas and theorems for idempotence of the reconciliation (C4). -/

namespace LdapZabbixSync

theorem mem_dedupAcc (seen l : List String) (a : String) :
    a ∈ dedupAcc seen l ↔ a ∈ l ∧ ¬ a ∈ seen := by
  induction l generalizing seen with
  | nil => simp [dedupAcc]
  | cons x xs ih =>
      unfold dedupAcc
      by_cases hx : seen.contains x
      · rw [if_pos hx]
        rw [ih]
        constructor
        · rintro ⟨h1, h2⟩
          exact ⟨List.mem_cons_of_mem x h1, h2⟩
        · rintro ⟨h1, h2⟩
          rcases List.mem_cons.mp h1 with h1 | h1
          · subst h1
            exact absurd (by simpa using hx) h2
          · exact ⟨h1, h2⟩
      · rw [if_neg hx]
        constructor
        · intro h
          rcases List.mem_cons.mp h with h | h
          · subst h
            exact ⟨List.mem_cons_self _ _, by simpa using hx⟩
          · rcases (ih (x :: seen)).mp h with ⟨h1, h2⟩
            exact ⟨List.mem_cons_of_mem x h1, fun hs => h2 (List.mem_cons_of_mem x hs)⟩
        · rintro ⟨h1, h2⟩
          rcases List.mem_cons.mp h1 with h1 | h1
          · subst h1
            exact List.mem_cons_self _ _
          · by_cases hax : a = x
            · subst hax
              exact List.mem_cons_self _ _
            · exact List.mem_cons_of_mem x ((ih (x :: seen)).mpr
                ⟨h1, fun hs => by
                  rcases List.mem_cons.mp hs with hs | hs
                  · exact hax hs
                  · exact h2 hs⟩)

theorem mem_pySet (l : List String) (a : String) : a ∈ pySet l ↔ a ∈ l := by
  unfold pySet
  rw [mem_dedupAcc]
  simp

theorem mem_setDiff (a b : List String) (x : String) :
    x ∈ setDiff a b ↔ x ∈ a ∧ ¬ x ∈ b := by
  unfold setDiff
  rw [mem_pySet]
  simp [List.mem_filter]

theorem setDiff_eq_nil (a b : List String) (h : ∀ x ∈ a, x ∈ b) :
    setDiff a b = [] := by
  cases hs : setDiff a b with
  | nil => rfl
  | cons y ys =>
      have : y ∈ setDiff a b := hs ▸ List.mem_cons_self y ys
      rw [mem_setDiff] at this
      exact absurd (h y this.1) this.2

theorem char_toNat_ofNat (n : Nat) (h : n.isValidChar) : (Char.ofNat n).toNat = n := by
  unfold Char.ofNat
  rw [dif_pos h]
  rfl

theorem toLower_toNat_not_upper (c : Char) :
    ¬(c.toLower.toNat ≥ 65 ∧ c.toLower.toNat ≤ 90) := by
  unfold Char.toLower
  by_cases h : c.toNat ≥ 65 ∧ c.toNat ≤ 90
  · rw [if_pos h]
    rw [char_toNat_ofNat _ (Or.inl (by omega))]
    omega
  · rw [if_neg h]
    exact h

theorem toLower_idem (c : Char) : c.toLower.toLower = c.toLower := by
  have hn := toLower_toNat_not_upper c
  generalize c.toLower = a at hn ⊢
  unfold Char.toLower
  rw [if_neg hn]

theorem pyLower_idem (s : String) : pyLower (pyLower s) = pyLower s := by
  unfold pyLower
  simp only [List.map_map]
  congr 1
  exact List.map_congr_left (fun c _ => toLower_idem c)

theorem mem_get_group_members (st : ZState) (gid k : String) :
    k ∈ get_group_members st gid ↔
      ∃ u ∈ st.users, u.username = k ∧ (gid, u.userid) ∈ st.membership := by
  unfold get_group_members
  constructor
  · intro h
    obtain ⟨u, hu, huk⟩ := List.mem_map.mp h
    obtain ⟨hu1, hu2⟩ := List.mem_filter.mp hu
    exact ⟨u, hu1, huk, by simpa using hu2⟩
  · rintro ⟨u, hu, huk, hm⟩
    exact List.mem_map.mpr ⟨u, List.mem_filter.mpr ⟨hu, by simpa using hm⟩, huk⟩

theorem names_mono {st st' : ZState} (h : Preserves st st') (gid k : String)
    (hk : k ∈ get_group_members st gid) : k ∈ get_group_members st' gid := by
  rw [mem_get_group_members] at hk ⊢
  obtain ⟨u, hu, huk, hm⟩ := hk
  exact ⟨u, h.1 u hu, huk, h.2 u hu gid hm⟩

theorem filter_username_single (l : List ZUser) (u : String)
    (hpw : l.Pairwise (fun a b => a.username ≠ b.username))
    (hlow : ∀ x ∈ l, pyLower x.username = x.username)
    (e : ZUser) (he : e ∈ l) (heu : e.username = u) :
    l.filter (fun x => pyLower x.username == u) = [e] := by
  induction l with
  | nil => cases he
  | cons a t ih =>
      rw [List.pairwise_cons] at hpw
      rcases List.mem_cons.mp he with he0 | he0
      · subst he0
        rw [List.filter_cons]
        have hpa : (pyLower e.username == u) = true := by
          rw [hlow e (List.mem_cons_self _ _), heu]
          simp
        rw [if_pos hpa]
        have hnil : t.filter (fun x => pyLower x.username == u) = [] := by
          rw [List.filter_eq_nil]
          intro x hx
          rw [hlow x (List.mem_cons_of_mem _ hx)]
          simp
          intro hxe
          exact (hpw.1 x hx) (heu.trans hxe.symm)
        rw [hnil]
      · rw [List.filter_cons]
        have hpa : ¬((pyLower a.username == u) = true) := by
          rw [hlow a (List.mem_cons_self _ _)]
          simp
          intro hau
          exact (hpw.1 e he0) (by rw [hau, heu])
        rw [if_neg hpa]
        exact ih hpw.2 (fun x hx => hlow x (List.mem_cons_of_mem _ hx)) he0

theorem get_user_id_eq (st : ZState) (hwf : WFUsers st) (e : ZUser)
    (he : e ∈ st.users) (u : String) (heu : e.username = u) :
    get_user_id st u = some e.userid := by
  unfold get_user_id
  rw [filter_username_single st.users u hwf.1 hwf.2 e he heu]
  rfl

theorem mem_addTargetIds_self (st : ZState) (u gid : String) (uid : String)
    (h : get_user_id st u = some uid) : uid ∈ addTargetIds st u gid := by
  simp only [addTargetIds, h]
  split
  · rename_i hc
    simpa [strOfOptId] using List.mem_of_elem_eq_true (by simpa [strOfOptId] using hc)
  · simp [strOfOptId]

theorem mem_addGroupMembers_self (st : ZState) (gid i : String) :
    (gid, i) ∈ (addGroupMembers st gid [i]).membership := by
  unfold addGroupMembers
  by_cases hc : st.membership.contains (gid, i)
  · exact List.mem_append_left _ (by simpa using hc)
  · refine List.mem_append_right _ ?_
    simp [hc]
    simpa using hc

theorem mem_names_update_user (cfg : Config) (st : ZState) (u g : String)
    (hdry : cfg.dryrun = false) (hwf : WFUsers st) (e : ZUser) (he : e ∈ st.users)
    (heu : e.username = u) :
    u ∈ get_group_members (update_user cfg st u g).2 g := by
  have hid := get_user_id_eq st hwf e he u heu
  unfold update_user
  rw [hid]
  by_cases hv : pyStrGE cfg.apiVersion "3.4" = true
  · simp only [hv, if_true, hdry, Bool.false_eq_true, if_false]
    rw [mem_get_group_members]
    refine ⟨e, he, heu, ?_⟩
    unfold setGroupMembers
    refine List.mem_append_right _ (List.mem_map.mpr ⟨e.userid, ?_, rfl⟩)
    have := mem_addTargetIds_self st u g e.userid hid
    simpa [addTargetIds, hid] using this
  · simp only [hv, Bool.false_eq_true, if_false, hdry]
    rw [mem_get_group_members]
    refine ⟨e, he, heu, ?_⟩
    simpa [strOfOptId] using mem_addGroupMembers_self st g e.userid

theorem update_user_users_eq (cfg : Config) (st : ZState) (u g : String) :
    (update_user cfg st u g).2.users = st.users := by
  unfold update_user
  by_cases hv : pyStrGE cfg.apiVersion "3.4" = true <;>
    by_cases hd : cfg.dryrun = true <;>
      simp [hv, hd, setGroupMembers, addGroupMembers]

theorem update_user_groups_eq (cfg : Config) (st : ZState) (u g : String) :
    (update_user cfg st u g).2.groups = st.groups := by
  unfold update_user
  by_cases hv : pyStrGE cfg.apiVersion "3.4" = true <;>
    by_cases hd : cfg.dryrun = true <;>
      simp [hv, hd, setGroupMembers, addGroupMembers]

theorem WFUsers_of_users_eq {st st' : ZState} (h : st'.users = st.users)
    (hwf : WFUsers st) : WFUsers st' := by
  unfold WFUsers at *
  rw [h]
  exact hwf

theorem syncMissingStep_run1 (cfg : Config) (d : Dir) (lu : List (String × String))
    (gn gi : String) (rid : Option String) (gs0 : List ZGroup) (acc : MissingAcc)
    (u : String) (hdry : cfg.dryrun = false) (hInv : MInv gs0 acc)
    (hlow : pyLower u = u) :
    MInv gs0 (syncMissingStep cfg d lu gn gi rid acc u) ∧
    Preserves acc.st (syncMissingStep cfg d lu gn gi rid acc u).st ∧
    u ∈ get_group_members (syncMissingStep cfg d lu gn gi rid acc u).st gi := by
  obtain ⟨hwf, hau, hg⟩ := hInv
  unfold syncMissingStep
  split
  · rename_i hc
    simp only [hdry, Bool.false_eq_true, if_false]
    have hfresh : ∀ a ∈ acc.st.users, a.username ≠ u := by
      intro a ha heq
      have : u ∈ acc.allUsers := by
        rw [hau]
        exact List.mem_map.mpr ⟨a, ha, heq⟩
      simp [this] at hc
    refine ⟨⟨⟨?_, ?_⟩, ?_, ?_⟩, ?_, ?_⟩
    · simp only [create_user]
      rw [List.pairwise_append]
      exact ⟨hwf.1, List.pairwise_singleton _ _,
        fun a ha b hb => by
          rw [List.mem_singleton] at hb
          subst hb
          exact hfresh a ha⟩
    · simp only [create_user]
      intro x hx
      rcases List.mem_append.mp hx with hx | hx
      · exact hwf.2 x hx
      · rw [List.mem_singleton] at hx
        subst hx
        exact hlow
    · simp only [create_user, List.map_append, hau]
      rfl
    · simp only [create_user]
      exact hg
    · exact create_user_preserves acc.st u _ _ gi rid
    · rw [mem_get_group_members]
      refine ⟨⟨toString acc.st.nextId, u⟩, ?_, rfl, ?_⟩
      · simp [create_user]
      · simp [create_user]
  · rename_i hc
    have hu : u ∈ acc.allUsers := by
      by_contra hno
      simp [hno] at hc
    rw [hau] at hu
    obtain ⟨e, he, heu⟩ := List.mem_map.mp hu
    simp only [hdry, Bool.false_eq_true, if_false]
    refine ⟨⟨?_, ?_, ?_⟩, ?_, ?_⟩
    · exact WFUsers_of_users_eq (update_user_users_eq cfg acc.st u gi) hwf
    · rw [update_user_users_eq cfg acc.st u gi, hau]
    · rw [update_user_groups_eq cfg acc.st u gi]
      exact hg
    · exact update_user_preserves cfg acc.st u gi
    · exact mem_names_update_user cfg acc.st u gi hdry ⟨hwf.1, hwf.2⟩ e he heu

theorem missingFold_run1 (cfg : Config) (d : Dir) (lu : List (String × String))
    (gn gi : String) (rid : Option String) (gs0 : List ZGroup)
    (hdry : cfg.dryrun = false) :
    ∀ (l : List String) (init : MissingAcc), MInv gs0 init →
      (∀ u ∈ l, pyLower u = u) →
      MInv gs0 (l.foldl (syncMissingStep cfg d lu gn gi rid) init) ∧
      Preserves init.st (l.foldl (syncMissingStep cfg d lu gn gi rid) init).st ∧
      ∀ k ∈ l, k ∈ get_group_members
        (l.foldl (syncMissingStep cfg d lu gn gi rid) init).st gi := by
  intro l
  induction l with
  | nil =>
      intro init hInv _
      exact ⟨hInv, preserves_refl _, fun k hk => absurd hk (List.not_mem_nil k)⟩
  | cons x t ih =>
      intro init hInv hlow
      simp only [List.foldl_cons]
      obtain ⟨hI, hP, hN⟩ := syncMissingStep_run1 cfg d lu gn gi rid gs0 init x hdry
        hInv (hlow x (List.mem_cons_self _ _))
      obtain ⟨hI2, hP2, hN2⟩ := ih _ hI (fun u hu => hlow u (List.mem_cons_of_mem _ hu))
      refine ⟨hI2, preserves_trans hP hP2, ?_⟩
      intro k hk
      rcases List.mem_cons.mp hk with hk | hk
      · subst hk
        exact names_mono hP2 gi k hN
      · exact hN2 k hk

theorem syncUmbrellaStep_run1 (cfg : Config) (un ui : String)
    (acc : List Event × ZState) (u : String) (hdry : cfg.dryrun = false)
    (hwf : WFUsers acc.2) (hex : ∃ e ∈ acc.2.users, e.username = u) :
    (syncUmbrellaStep cfg un ui acc u).2.users = acc.2.users ∧
    (syncUmbrellaStep cfg un ui acc u).2.groups = acc.2.groups ∧
    Preserves acc.2 (syncUmbrellaStep cfg un ui acc u).2 ∧
    u ∈ get_group_members (syncUmbrellaStep cfg un ui acc u).2 ui := by
  obtain ⟨e, he, heu⟩ := hex
  unfold syncUmbrellaStep
  exact ⟨update_user_users_eq cfg acc.2 u ui,
    update_user_groups_eq cfg acc.2 u ui,
    update_user_preserves cfg acc.2 u ui,
    mem_names_update_user cfg acc.2 u ui hdry hwf e he heu⟩

theorem umbFold_run1 (cfg : Config) (un ui : String) (hdry : cfg.dryrun = false) :
    ∀ (l : List String) (init : List Event × ZState), WFUsers init.2 →
      (∀ u ∈ l, ∃ e ∈ init.2.users, e.username = u) →
      (l.foldl (syncUmbrellaStep cfg un ui) init).2.users = init.2.users ∧
      (l.foldl (syncUmbrellaStep cfg un ui) init).2.groups = init.2.groups ∧
      Preserves init.2 (l.foldl (syncUmbrellaStep cfg un ui) init).2 ∧
      ∀ k ∈ l, k ∈ get_group_members (l.foldl (syncUmbrellaStep cfg un ui) init).2 ui := by
  intro l
  induction l with
  | nil =>
      intro init hwf _
      exact ⟨rfl, rfl, preserves_refl _, fun k hk => absurd hk (List.not_mem_nil k)⟩
  | cons x t ih =>
      intro init hwf hex
      simp only [List.foldl_cons]
      obtain ⟨hu1, hg1, hP1, hN1⟩ := syncUmbrellaStep_run1 cfg un ui init x hdry hwf
        (hex x (List.mem_cons_self _ _))
      obtain ⟨hu2, hg2, hP2, hN2⟩ := ih (syncUmbrellaStep cfg un ui init x)
        (WFUsers_of_users_eq hu1 hwf)
        (fun u hu => by
          obtain ⟨e, he, heu⟩ := hex u (List.mem_cons_of_mem _ hu)
          exact ⟨e, hu1 ▸ he, heu⟩)
      refine ⟨hu2.trans hu1, hg2.trans hg1, preserves_trans hP1 hP2, ?_⟩
      intro k hk
      rcases List.mem_cons.mp hk with hk | hk
      · subst hk
        exact names_mono hP2 ui k hN1
      · exact hN2 k hk

theorem runUmbrella_run1 (cfg : Config) (ui : String) (toAdd : List String)
    (st : ZState) (hdry : cfg.dryrun = false) (hwf : WFUsers st)
    (hex : ∀ u ∈ toAdd, ∃ e ∈ st.users, e.username = u) :
    (runUmbrella cfg (some ui) toAdd st).2.users = st.users ∧
    (runUmbrella cfg (some ui) toAdd st).2.groups = st.groups ∧
    Preserves st (runUmbrella cfg (some ui) toAdd st).2 ∧
    ∀ k ∈ toAdd, k ∈ get_group_members (runUmbrella cfg (some ui) toAdd st).2 ui := by
  unfold runUmbrella
  exact umbFold_run1 cfg _ ui hdry toAdd ([], st) hwf hex

theorem update_media_fields (cfg : Config) (st : ZState) (u desc sendto : String)
    (mo : List (String × String)) (r : List Event × ZState)
    (h : update_media cfg st u desc sendto mo = .ok r) :
    r.2.users = st.users ∧ r.2.membership = st.membership ∧ r.2.groups = st.groups := by
  unfold update_media at h
  split at h
  · exact absurd h (by simp)
  · split at h
    · simp only [Except.ok.injEq] at h
      subst h
      exact ⟨rfl, rfl, rfl⟩
    · split at h
      · exact absurd h (by simp)
      · rename_i evs2 st2 hr2
        simp only [Except.ok.injEq] at h
        subst h
        unfold delete_media_by_description at hr2
        split at hr2
        · exact absurd hr2 (by simp)
        · simp only [Except.ok.injEq, Prod.mk.injEq] at hr2
          obtain ⟨he2, hs2⟩ := hr2
          subst hs2
          exact ⟨rfl, rfl, rfl⟩

theorem syncMediaOne_fields (cfg : Config) (d : Dir) (lu : List (String × String))
    (ab : List String) (mof : List (String × String)) (acc : Out) (u : String) :
    (syncMediaOne cfg d lu ab mof acc u).st.users = acc.st.users ∧
    (syncMediaOne cfg d lu ab mof acc u).st.membership = acc.st.membership ∧
    (syncMediaOne cfg d lu ab mof acc u).st.groups = acc.st.groups := by
  unfold syncMediaOne
  split
  · exact ⟨rfl, rfl, rfl⟩
  · split
    · exact ⟨rfl, rfl, rfl⟩
    · rename_i o1 attr hattr o2 dn hdn
      by_cases hc : (!ab.contains u && (dir_media d dn attr).isSome && !cfg.dryrun) = true
      · simp only [hc, if_true]
        split
        · exact ⟨rfl, rfl, rfl⟩
        · rename_i r hr
          exact update_media_fields cfg acc.st _ cfg.media_name _ mof r hr
      · simp only [hc, Bool.false_eq_true, if_false]
        simp

theorem syncMediaStep_fields (cfg : Config) (d : Dir) (lu : List (String × String))
    (ab : List String) (mof : List (String × String)) (acc : Out) (u : String) :
    (syncMediaStep cfg d lu ab mof acc u).st.users = acc.st.users ∧
    (syncMediaStep cfg d lu ab mof acc u).st.membership = acc.st.membership ∧
    (syncMediaStep cfg d lu ab mof acc u).st.groups = acc.st.groups := by
  unfold syncMediaStep
  split
  · exact ⟨rfl, rfl, rfl⟩
  · exact syncMediaOne_fields cfg d lu ab mof acc _

theorem runMedia_fields (cfg : Config) (d : Dir) (lu : List (String × String))
    (ab : List String) (mof : List (String × String)) (users : List String)
    (st : ZState) :
    (runMedia cfg d lu ab mof users st).st.users = st.users ∧
    (runMedia cfg d lu ab mof users st).st.membership = st.membership ∧
    (runMedia cfg d lu ab mof users st).st.groups = st.groups := by
  have h := foldl_eq_of_step
    (fun (acc : Out) => (acc.st.users, acc.st.membership, acc.st.groups))
    (syncMediaStep cfg d lu ab mof) (pySet users) ⟨[], st, none⟩
    (fun acc u => by
      obtain ⟨h1, h2, h3⟩ := syncMediaStep_fields cfg d lu ab mof acc u
      simp [h1, h2, h3])
  unfold runMedia
  refine ⟨?_, ?_, ?_⟩
  · exact congrArg (fun p => p.1) h
  · exact congrArg (fun p => p.2.1) h
  · exact congrArg (fun p => p.2.2) h

theorem PostG_mono (cfg : Config) (d : Dir) (gs0 : List ZGroup)
    (umbId : Option String) (umbUsers : List String) (spec : String)
    {s s' : ZState} (hp : Preserves s s')
    (h : PostG cfg d gs0 umbId umbUsers spec s) :
    PostG cfg d gs0 umbId umbUsers spec s' := by
  obtain ⟨raw, hraw, h⟩ := h
  refine ⟨raw, hraw, ?_⟩
  rcases h with h | ⟨gid, hgid, h⟩
  · exact Or.inl h
  · refine Or.inr ⟨gid, hgid, fun k hk => ?_⟩
    obtain ⟨h1, h2⟩ := h k hk
    exact ⟨names_mono hp gid k h1,
      fun uid huid hnu => names_mono hp uid k (h2 uid huid hnu)⟩

theorem get_users_names_eq (cfg : Config) (st : ZState)
    (hpres : cfg.preserve_accountids = false) (hwf : WFUsers st) :
    get_users_names cfg st = st.users.map (fun u => u.username) := by
  unfold get_users_names
  rw [hpres]
  simp only [Bool.false_eq_true, if_false]
  exact List.map_congr_left (fun u hu => hwf.2 u hu)

theorem ldapKeys_lower (cfg : Config) (raw : List (String × String))
    (hpres : cfg.preserve_accountids = false) :
    ∀ k ∈ (ldapUsersOf cfg raw).map Prod.fst, pyLower k = k := by
  intro k hk
  unfold ldapUsersOf at hk
  rw [hpres] at hk
  simp only [Bool.false_eq_true, if_false] at hk
  have := dictOf_keys _ k hk
  simp only [List.map_map, List.mem_map, Function.comp] at this
  obtain ⟨p, hp, hpk⟩ := this
  rw [← hpk]
  exact pyLower_idem p.1

theorem get_group_members_congr {st st' : ZState} (hu : st'.users = st.users)
    (hm : st'.membership = st.membership) (gid : String) :
    get_group_members st' gid = get_group_members st gid := by
  unfold get_group_members
  rw [hu, hm]

theorem runMissing_run1 (cfg : Config) (d : Dir) (lu : List (String × String))
    (gn gi : String) (rid : Option String) (missing : List String) (st : ZState)
    (hdry : cfg.dryrun = false) (hpres : cfg.preserve_accountids = false)
    (hwf : WFUsers st) (hlow : ∀ u ∈ missing, pyLower u = u) :
    MInv st.groups
      (runMissing cfg d lu gn gi rid (get_users_names cfg st) missing st) ∧
    Preserves st
      (runMissing cfg d lu gn gi rid (get_users_names cfg st) missing st).st ∧
    ∀ k ∈ missing, k ∈ get_group_members
      (runMissing cfg d lu gn gi rid (get_users_names cfg st) missing st).st gi := by
  unfold runMissing
  exact missingFold_run1 cfg d lu gn gi rid st.groups hdry missing
    ⟨[], st, get_users_names cfg st⟩
    ⟨hwf, get_users_names_eq cfg st hpres hwf, rfl⟩ hlow

theorem groupPass_run1 (cfg : Config) (d : Dir) (umbId : Option String)
    (umbUsers : List String) (spec : String) (st : ZState)
    (hdry : cfg.dryrun = false) (hpres : cfg.preserve_accountids = false)
    (hwf : WFUsers st)
    (habs : umbUsers = [] ∨ (cfg.deleteorphans = false ∧ cfg.removeabsent = false)) :
    (groupPass cfg d umbId umbUsers spec st).err = none →
      WFUsers (groupPass cfg d umbId umbUsers spec st).st ∧
      (groupPass cfg d umbId umbUsers spec st).st.groups = st.groups ∧
      Preserves st (groupPass cfg d umbId umbUsers spec st).st ∧
      PostG cfg d st.groups umbId umbUsers spec
        (groupPass cfg d umbId umbUsers spec st).st := by
  simp only [groupPass]
  split
  · intro h
    exact absurd h (by simp)
  · rename_i raw hraw
    split
    · rename_i hgrd
      intro _
      exact ⟨hwf, rfl, preserves_refl st, raw, hraw, Or.inl hgrd⟩
    · rename_i hgrd
      split
      · intro h
        exact absurd h (by simp)
      · rename_i gid hgid
        have hkeys := ldapKeys_lower cfg raw hpres
        have hlowmissing : ∀ u ∈ setDiff (List.map (fun p => p.1) (ldapUsersOf cfg raw))
            (get_group_members st gid), pyLower u = u := by
          intro u hu
          exact hkeys u ((mem_setDiff _ _ u).mp hu).1
        obtain ⟨hMI, hMP, hMN⟩ := runMissing_run1 cfg d (ldapUsersOf cfg raw)
          (get_group_spec spec).1 gid (get_group_spec spec).2
          (setDiff (List.map (fun p => p.1) (ldapUsersOf cfg raw))
            (get_group_members st gid)) st hdry hpres hwf hlowmissing
        obtain ⟨hMWF, hMau, hMg⟩ := hMI
        set M := runMissing cfg d (ldapUsersOf cfg raw) (get_group_spec spec).1 gid
          (get_group_spec spec).2 (get_users_names cfg st)
          (setDiff (List.map (fun p => p.1) (ldapUsersOf cfg raw))
            (get_group_members st gid)) st with hMdef
        have hexist : ∀ u ∈ setDiff (List.map (fun p => p.1) (ldapUsersOf cfg raw))
            umbUsers, ∃ e ∈ M.st.users, e.username = u := by
          intro u hu
          have hukeys := ((mem_setDiff _ _ u).mp hu).1
          by_cases hm : u ∈ setDiff (List.map (fun p => p.1) (ldapUsersOf cfg raw))
              (get_group_members st gid)
          · have := hMN u hm
            rw [mem_get_group_members] at this
            obtain ⟨e, he, heu, _⟩ := this
            exact ⟨e, he, heu⟩
          · have hz : u ∈ get_group_members st gid := by
              by_contra hnz
              exact hm ((mem_setDiff _ _ u).mpr ⟨hukeys, hnz⟩)
            rw [mem_get_group_members] at hz
            obtain ⟨e, he, heu, _⟩ := hz
            exact ⟨e, hMP.1 e he, heu⟩
        set RU := runUmbrella cfg umbId
          (setDiff (List.map (fun p => p.1) (ldapUsersOf cfg raw)) umbUsers)
          M.st with hRUdef
        have hRU : RU.2.users = M.st.users ∧ RU.2.groups = M.st.groups ∧
            Preserves M.st RU.2 ∧
            ∀ uid, umbId = some uid →
              ∀ k ∈ setDiff (List.map (fun p => p.1) (ldapUsersOf cfg raw)) umbUsers,
                k ∈ get_group_members RU.2 uid := by
          rw [hRUdef]
          cases umbId with
          | none => exact ⟨rfl, rfl, preserves_refl _, fun uid h => by cases h⟩
          | some uid =>
              obtain ⟨h1, h2, h3, h4⟩ := runUmbrella_run1 cfg uid _ _ hdry hMWF hexist
              exact ⟨h1, h2, h3, fun uid' huid' => by
                cases huid'
                exact h4⟩
        obtain ⟨hRUu, hRUg, hRUP, hRUN⟩ := hRU
        set RA := runAbsent cfg umbUsers gid
          (setDiff (get_group_members st gid)
            (List.map (fun p => p.1) (ldapUsersOf cfg raw))) RU.2 with hRAdef
        have hRAeq : RA = ([], RU.2) := by
          rw [hRAdef]
          exact runAbsent_id _ _ _ _ _ habs
        have hRA2 : RA.2 = RU.2 := by rw [hRAeq]
        split
        · intro h
          exact absurd h (by simp)
        · rename_i ocmof hmof
          intro _
          obtain ⟨hmu, hmm, hmg⟩ := runMedia_fields cfg d (ldapUsersOf cfg raw)
            (setDiff (get_group_members st gid)
              (List.map (fun p => p.1) (ldapUsersOf cfg raw))) ocmof.2
            (if ocmof.1 then
                setDiff (List.map (fun p => p.1) (ldapUsersOf cfg raw))
                  (get_group_members st gid)
              else get_group_members RA.2 gid) RA.2
          have hPRA : Preserves RU.2 RA.2 := by
            rw [hRA2]
            exact preserves_refl _
          have hPRM := preserves_of_fields hmu hmm
          have huchain := hmu.trans ((congrArg ZState.users hRA2).trans hRUu)
          have hgchain := hmg.trans
            ((congrArg ZState.groups hRA2).trans (hRUg.trans hMg))
          have hpostRU : PostG cfg d st.groups umbId umbUsers spec RU.2 := by
            refine ⟨raw, hraw, Or.inr ⟨gid, hgid, fun k hk => ?_⟩⟩
            have hk' : k ∈ List.map (fun p => p.1) (ldapUsersOf cfg raw) := hk
            constructor
            · by_cases hm : k ∈ setDiff (List.map (fun p => p.1) (ldapUsersOf cfg raw))
                  (get_group_members st gid)
              · exact names_mono hRUP gid k (hMN k hm)
              · have hz : k ∈ get_group_members st gid := by
                  by_contra hnz
                  exact hm ((mem_setDiff _ _ k).mpr ⟨hk', hnz⟩)
                exact names_mono (preserves_trans hMP hRUP) gid k hz
            · intro uid huid hnu
              exact hRUN uid huid k ((mem_setDiff _ _ k).mpr ⟨hk', hnu⟩)
          exact ⟨WFUsers_of_users_eq huchain hMWF, hgchain,
            preserves_trans (preserves_trans (preserves_trans hMP hRUP) hPRA) hPRM,
            PostG_mono cfg d st.groups umbId umbUsers spec
              (preserves_trans hPRA hPRM) hpostRU⟩

theorem adminCalls_append (a b : List Event) :
    adminCalls (a ++ b) = adminCalls a ++ adminCalls b := by
  unfold adminCalls
  rw [mutCalls_append, List.filter_append]

theorem adminCalls_map_deleteMedia (l : List ZMedia) (f : ZMedia → String) :
    adminCalls (l.map (fun m => Event.rpc (Rpc.userDeleteMedia (f m)))) = [] := by
  induction l with
  | nil => rfl
  | cons a t ih => simpa [adminCalls, mutCalls, isAdminRpc] using ih

theorem delete_media_noadmin (st : ZState) (user desc : String)
    (evs : List Event) (st' : ZState)
    (h : delete_media_by_description st user desc = .ok (evs, st')) :
    adminCalls evs = [] := by
  unfold delete_media_by_description at h
  split at h
  · exact absurd h (by simp)
  · simp only [Except.ok.injEq, Prod.mk.injEq] at h
    obtain ⟨h1, h2⟩ := h
    rw [← h1]
    exact adminCalls_map_deleteMedia _ _

theorem update_media_noadmin (cfg : Config) (st : ZState) (user desc sendto : String)
    (mo : List (String × String)) (r : List Event × ZState)
    (h : update_media cfg st user desc sendto mo = .ok r) :
    adminCalls r.1 = [] := by
  unfold update_media at h
  split at h
  · exact absurd h (by simp)
  · split at h
    · simp only [Except.ok.injEq] at h
      rw [← h]
      rfl
    · split at h
      · exact absurd h (by simp)
      · rename_i evs0 st0 hr0
        simp only [Except.ok.injEq] at h
        rw [← h]
        simp only [adminCalls_append]
        rw [delete_media_noadmin st user desc evs0 st0 hr0]
        rfl

theorem syncMediaOne_admin_eq (cfg : Config) (d : Dir) (lu : List (String × String))
    (ab : List String) (mof : List (String × String)) (acc : Out) (u : String) :
    adminCalls (syncMediaOne cfg d lu ab mof acc u).evs = adminCalls acc.evs := by
  unfold syncMediaOne
  split
  · rfl
  · split
    · rfl
    · split
      · split
        · rename_i e he
          simp only [adminCalls_append]
          simp [adminCalls, mutCalls]
        · rename_i r hr
          simp only [adminCalls_append]
          rw [show adminCalls r.1 = [] from update_media_noadmin cfg acc.st u
            cfg.media_name _ mof r hr]
          simp [adminCalls, mutCalls]
      · rfl

theorem syncMediaStep_admin_eq (cfg : Config) (d : Dir) (lu : List (String × String))
    (ab : List String) (mof : List (String × String)) (acc : Out) (u : String) :
    adminCalls (syncMediaStep cfg d lu ab mof acc u).evs = adminCalls acc.evs := by
  unfold syncMediaStep
  split
  · rfl
  · exact syncMediaOne_admin_eq cfg d lu ab mof acc _

theorem runMedia_noadmin (cfg : Config) (d : Dir) (lu : List (String × String))
    (ab : List String) (mof : List (String × String)) (users : List String)
    (st : ZState) :
    adminCalls (runMedia cfg d lu ab mof users st).evs = [] := by
  have h := foldl_eq_of_step (fun (acc : Out) => adminCalls acc.evs)
    (syncMediaStep cfg d lu ab mof) (pySet users) ⟨[], st, none⟩
    (fun acc u => syncMediaStep_admin_eq cfg d lu ab mof acc u)
  unfold runMedia
  exact h.trans rfl

theorem NoAdminPre_transport (cfg : Config) (d : Dir) (umbId : Option String)
    (umbUsers : List String) (spec : String) {s s' : ZState}
    (hu : s'.users = s.users) (hm : s'.membership = s.membership)
    (hg : s'.groups = s.groups)
    (h : NoAdminPre cfg d umbId umbUsers spec s) :
    NoAdminPre cfg d umbId umbUsers spec s' := by
  obtain ⟨raw, hraw, h⟩ := h
  refine ⟨raw, hraw, ?_⟩
  rcases h with h | ⟨gid, hgid, h1, h2⟩
  · exact Or.inl h
  · refine Or.inr ⟨gid, by rw [hg]; exact hgid, fun k hk => ?_, h2⟩
    rw [get_group_members_congr hu hm]
    exact h1 k hk

theorem groupPass_noadmin (cfg : Config) (d : Dir) (umbId : Option String)
    (umbUsers : List String) (spec : String) (s : ZState)
    (hpre : NoAdminPre cfg d umbId umbUsers spec s)
    (habs : umbUsers = [] ∨ (cfg.deleteorphans = false ∧ cfg.removeabsent = false)) :
    adminCalls (groupPass cfg d umbId umbUsers spec s).evs = [] ∧
    (groupPass cfg d umbId umbUsers spec s).st.users = s.users ∧
    (groupPass cfg d umbId umbUsers spec s).st.membership = s.membership ∧
    (groupPass cfg d umbId umbUsers spec s).st.groups = s.groups := by
  obtain ⟨raw, hraw, hpre⟩ := hpre
  unfold ldapRawOf at hraw
  simp only [groupPass]
  split
  · rename_i heq
    rw [heq] at hraw
    exact absurd hraw (by simp)
  · rename_i raw0 heq
    rw [heq] at hraw
    simp only [Option.some.injEq] at hraw
    subst hraw
    split
    · exact ⟨rfl, rfl, rfl, rfl⟩
    · rename_i hgrd
      rcases hpre with hpre | ⟨gid, hgid, hmiss, humb⟩
      · unfold guardSkip at hpre
        exact absurd hpre hgrd
      · unfold gidOf at hgid
        split
        · rename_i heq2
          rw [show get_groups s = s.groups from rfl] at heq2
          rw [heq2] at hgid
          exact absurd hgid (by simp)
        · rename_i gid0 heq2
          rw [show get_groups s = s.groups from rfl] at heq2
          rw [heq2] at hgid
          simp only [Option.some.injEq] at hgid
          subst hgid
          have hmissnil : setDiff (List.map (fun p => p.1) (ldapUsersOf cfg raw0))
              (get_group_members s gid0) = [] :=
            setDiff_eq_nil _ _ (fun k hk => hmiss k hk)
          rw [hmissnil]
          have hrm0 : runMissing cfg d (ldapUsersOf cfg raw0) (get_group_spec spec).1
              gid0 (get_group_spec spec).2 (get_users_names cfg s) [] s =
              ⟨[], s, get_users_names cfg s⟩ := rfl
          rw [hrm0]
          have hru0 : runUmbrella cfg umbId
              (setDiff (List.map (fun p => p.1) (ldapUsersOf cfg raw0)) umbUsers)
              (⟨[], s, get_users_names cfg s⟩ : MissingAcc).st = ([], s) := by
            cases humbId : umbId with
            | none => rfl
            | some uid =>
                have htoadd : setDiff (List.map (fun p => p.1) (ldapUsersOf cfg raw0))
                    umbUsers = [] :=
                  setDiff_eq_nil _ _ (fun k hk => humb uid humbId k hk)
                rw [htoadd]
                rfl
          rw [hru0]
          have hra0 := runAbsent_id cfg umbUsers gid0
            (setDiff (get_group_members s gid0)
              (List.map (fun p => p.1) (ldapUsersOf cfg raw0)))
            (([], s) : List Event × ZState).2 habs
          rw [hra0]
          split
          · exact ⟨rfl, rfl, rfl, rfl⟩
          · rename_i ocmof hmof
            obtain ⟨hmu, hmm, hmg⟩ := runMedia_fields cfg d (ldapUsersOf cfg raw0)
              (setDiff (get_group_members s gid0)
                (List.map (fun p => p.1) (ldapUsersOf cfg raw0))) ocmof.2
              (if ocmof.1 then [] else get_group_members
                (([], s) : List Event × ZState).2 gid0)
              (([], s) : List Event × ZState).2
            refine ⟨?_, hmu, hmm, hmg⟩
            simp only [List.nil_append]
            exact runMedia_noadmin cfg d (ldapUsersOf cfg raw0) _ ocmof.2 _ _

theorem groupsFold_absorb (cfg : Config) (d : Dir) (umbId : Option String)
    (umbUsers : List String) (specs : List String) (acc : Out)
    (h : acc.err ≠ none) :
    specs.foldl (syncGroupsFold cfg d umbId umbUsers) acc = acc := by
  induction specs with
  | nil => rfl
  | cons a t ih =>
      have hstep : syncGroupsFold cfg d umbId umbUsers acc a = acc := by
        unfold syncGroupsFold
        split
        · rfl
        · rename_i heq
          exact absurd heq h
      rw [List.foldl_cons, hstep]
      exact ih

theorem groupsFold_run1 (cfg : Config) (d : Dir) (umbId : Option String)
    (umbUsers : List String)
    (hdry : cfg.dryrun = false) (hpres : cfg.preserve_accountids = false)
    (habs : umbUsers = [] ∨ (cfg.deleteorphans = false ∧ cfg.removeabsent = false))
    (specs : List String) :
    ∀ (evs : List Event) (st : ZState), WFUsers st →
      (specs.foldl (syncGroupsFold cfg d umbId umbUsers) ⟨evs, st, none⟩).err = none →
      WFUsers (specs.foldl (syncGroupsFold cfg d umbId umbUsers) ⟨evs, st, none⟩).st ∧
      (specs.foldl (syncGroupsFold cfg d umbId umbUsers) ⟨evs, st, none⟩).st.groups =
        st.groups ∧
      Preserves st (specs.foldl (syncGroupsFold cfg d umbId umbUsers) ⟨evs, st, none⟩).st ∧
      ∀ spec ∈ specs, PostG cfg d st.groups umbId umbUsers spec
        (specs.foldl (syncGroupsFold cfg d umbId umbUsers) ⟨evs, st, none⟩).st := by
  induction specs with
  | nil =>
      intro evs st hwf _
      exact ⟨hwf, rfl, preserves_refl st, by simp⟩
  | cons a t ih =>
      intro evs st hwf hok
      rw [List.foldl_cons] at hok ⊢
      have hstep : syncGroupsFold cfg d umbId umbUsers ⟨evs, st, none⟩ a =
          ⟨evs ++ (groupPass cfg d umbId umbUsers a st).evs,
           (groupPass cfg d umbId umbUsers a st).st,
           (groupPass cfg d umbId umbUsers a st).err⟩ := rfl
      rw [hstep] at hok ⊢
      by_cases herr : (groupPass cfg d umbId umbUsers a st).err = none
      · obtain ⟨hW, hG, hP, hQ⟩ :=
          groupPass_run1 cfg d umbId umbUsers a st hdry hpres hwf habs herr
        rw [herr] at hok ⊢
        obtain ⟨hW2, hG2, hP2, hQ2⟩ := ih _ _ hW hok
        refine ⟨hW2, hG2.trans hG, preserves_trans hP hP2, ?_⟩
        intro spec hspec
        rcases List.mem_cons.mp hspec with h | h
        · subst h
          exact PostG_mono cfg d st.groups umbId umbUsers spec hP2 hQ
        · have := hQ2 spec h
          rwa [hG] at this
      · rw [groupsFold_absorb cfg d umbId umbUsers t
            ⟨evs ++ (groupPass cfg d umbId umbUsers a st).evs,
             (groupPass cfg d umbId umbUsers a st).st,
             (groupPass cfg d umbId umbUsers a st).err⟩ herr] at hok
        exact absurd hok herr

theorem groupsFold_noadmin (cfg : Config) (d : Dir) (umbId : Option String)
    (umbUsers : List String) (st1 : ZState)
    (habs : umbUsers = [] ∨ (cfg.deleteorphans = false ∧ cfg.removeabsent = false))
    (specs : List String) :
    ∀ (evs : List Event) (s : ZState) (e : Option Err), adminCalls evs = [] →
      s.users = st1.users → s.membership = st1.membership → s.groups = st1.groups →
      (∀ spec ∈ specs, NoAdminPre cfg d umbId umbUsers spec st1) →
      adminCalls (specs.foldl (syncGroupsFold cfg d umbId umbUsers) ⟨evs, s, e⟩).evs =
        [] := by
  induction specs with
  | nil =>
      intro evs s e ha _ _ _ _
      exact ha
  | cons a t ih =>
      intro evs s e ha hu hm hg hpre
      rw [List.foldl_cons]
      cases e with
      | some e0 =>
          have hstep : syncGroupsFold cfg d umbId umbUsers ⟨evs, s, some e0⟩ a =
              ⟨evs, s, some e0⟩ := rfl
          rw [hstep]
          exact ih evs s (some e0) ha hu hm hg (fun spec hs => hpre spec (List.mem_cons_of_mem a hs))
      | none =>
          have hstep : syncGroupsFold cfg d umbId umbUsers ⟨evs, s, none⟩ a =
              ⟨evs ++ (groupPass cfg d umbId umbUsers a s).evs,
               (groupPass cfg d umbId umbUsers a s).st,
               (groupPass cfg d umbId umbUsers a s).err⟩ := rfl
          rw [hstep]
          have hpres := NoAdminPre_transport cfg d umbId umbUsers a hu hm hg
            (hpre a (List.mem_cons_self a t))
          obtain ⟨hA, hu2, hm2, hg2⟩ := groupPass_noadmin cfg d umbId umbUsers a s hpres habs
          refine ih _ _ _ ?_ (hu2.trans hu) (hm2.trans hm) (hg2.trans hg)
            (fun spec hs => hpre spec (List.mem_cons_of_mem a hs))
          rw [adminCalls_append, ha, hA]
          rfl

theorem stIdem_wf : WFUsers stIdem := by
  constructor
  · simp [stIdem]
  · intro u hu
    simp only [stIdem, List.mem_singleton] at hu
    subst hu
    decide

theorem second_run_noadmin (cfg : Config) (d : Dir) (st0 st1 : ZState)
    (u : Option String × List String)
    (hcond : cfg.alldirusergroup = none ∨
      (cfg.deleteorphans = false ∧ cfg.removeabsent = false))
    (hsu1 : umbrellaSetup cfg st0 = .ok u)
    (hG1 : st1.groups = st0.groups) (hP1 : Preserves st0 st1)
    (hQ1 : ∀ spec ∈ cfg.ldap_groups, PostG cfg d st0.groups u.1 u.2 spec st1) :
    adminCalls (sync_users cfg d st1).evs = [] := by
  cases hcfg : cfg.alldirusergroup with
  | none =>
      have h2 : umbrellaSetup cfg st0 = .ok (none, []) := by
        unfold umbrellaSetup
        rw [hcfg]
      rw [h2] at hsu1
      simp only [Except.ok.injEq] at hsu1
      have hu1 : u.1 = none := by rw [← hsu1]
      have hu2 : u.2 = ([] : List String) := by rw [← hsu1]
      rw [hu1, hu2] at hQ1
      have hsu2 : umbrellaSetup cfg st1 = .ok (none, []) := by
        unfold umbrellaSetup
        rw [hcfg]
      have h3 : sync_users cfg d st1 =
          cfg.ldap_groups.foldl (syncGroupsFold cfg d none []) ⟨[], st1, none⟩ := by
        unfold sync_users
        rw [hsu2]
      rw [h3]
      refine groupsFold_noadmin cfg d none [] st1 (Or.inl rfl) cfg.ldap_groups
        [] st1 none rfl rfl rfl rfl ?_
      intro spec hs
      obtain ⟨raw, hraw, hQ⟩ := hQ1 spec hs
      refine ⟨raw, hraw, ?_⟩
      rcases hQ with hg | ⟨gid, hgid, hkeys⟩
      · exact Or.inl hg
      · refine Or.inr ⟨gid, ?_, fun k hk => (hkeys k hk).1, fun uid huid => ?_⟩
        · rw [hG1]
          exact hgid
        · exact absurd huid (by simp)
  | some name =>
      have hflags : cfg.deleteorphans = false ∧ cfg.removeabsent = false := by
        rcases hcond with hnone | hflags
        · rw [hcfg] at hnone
          exact absurd hnone (by simp)
        · exact hflags
      have h2 : umbrellaSetup cfg st0 =
          (match resolve_alldirusergroup_id (get_groups st0) name with
           | .error e => .error e
           | .ok gid => .ok (some gid, get_group_members st0 gid)) := by
        unfold umbrellaSetup
        rw [hcfg]
      rw [h2] at hsu1
      cases hres : resolve_alldirusergroup_id (get_groups st0) name with
      | error e =>
          rw [hres] at hsu1
          exact absurd hsu1 (by simp)
      | ok gid =>
          rw [hres] at hsu1
          simp only [Except.ok.injEq] at hsu1
          have hu1 : u.1 = some gid := by rw [← hsu1]
          have hu2 : u.2 = get_group_members st0 gid := by rw [← hsu1]
          rw [hu1, hu2] at hQ1
          have hres2 : resolve_alldirusergroup_id (get_groups st1) name = .ok gid := by
            have hgg : get_groups st1 = get_groups st0 := hG1
            rw [hgg]
            exact hres
          have hsu2 : umbrellaSetup cfg st1 =
              .ok (some gid, get_group_members st1 gid) := by
            have h4 : umbrellaSetup cfg st1 =
                (match resolve_alldirusergroup_id (get_groups st1) name with
                 | .error e => .error e
                 | .ok g => .ok (some g, get_group_members st1 g)) := by
              unfold umbrellaSetup
              rw [hcfg]
            rw [h4, hres2]
          have h3 : sync_users cfg d st1 = cfg.ldap_groups.foldl
              (syncGroupsFold cfg d (some gid) (get_group_members st1 gid))
              ⟨[], st1, none⟩ := by
            unfold sync_users
            rw [hsu2]
          rw [h3]
          refine groupsFold_noadmin cfg d (some gid) (get_group_members st1 gid) st1
            (Or.inr hflags) cfg.ldap_groups [] st1 none rfl rfl rfl rfl ?_
          intro spec hs
          obtain ⟨raw, hraw, hQ⟩ := hQ1 spec hs
          refine ⟨raw, hraw, ?_⟩
          rcases hQ with hg | ⟨gid2, hgid2, hkeys⟩
          · exact Or.inl hg
          · refine Or.inr ⟨gid2, ?_, fun k hk => (hkeys k hk).1, ?_⟩
            · rw [hG1]
              exact hgid2
            · intro uid huid k hk
              simp only [Option.some.injEq] at huid
              subst huid
              by_cases hk2 : k ∈ get_group_members st0 gid
              · exact names_mono hP1 gid k hk2
              · exact (hkeys k hk).2 gid rfl hk2

/-- C4: idempotence of reconciliation, amended.  With case folding on
(preserve_accountids false), a well-formed target state (pairwise-distinct,
already-lowercase usernames), and either no umbrella group or no removal
flags, a completed non-dry run leaves a state on which a second run issues
no create-account, delete-account, or group-membership (update/massadd)
call.  The unconditional claim is refuted by
C4_counterexample_second_run_reissues: a stored mixed-case username makes
every run re-issue the same group add. -/

theorem C4_second_run_no_admin_calls (cfg : Config) (d : Dir) (st0 : ZState)
    (hdry : cfg.dryrun = false) (hpres : cfg.preserve_accountids = false)
    (hwf : WFUsers st0)
    (hcond : cfg.alldirusergroup = none ∨
      (cfg.deleteorphans = false ∧ cfg.removeabsent = false))
    (hok : (sync_users cfg d st0).err = none) :
    adminCalls (sync_users cfg d (sync_users cfg d st0).st).evs = [] := by
  cases hsu1 : umbrellaSetup cfg st0 with
  | error e =>
      have h1 : sync_users cfg d st0 = ⟨[], st0, some e⟩ := by
        unfold sync_users
        rw [hsu1]
      rw [h1] at hok
      exact absurd hok (by simp)
  | ok u =>
      have h1 : sync_users cfg d st0 =
          cfg.ldap_groups.foldl (syncGroupsFold cfg d u.1 u.2) ⟨[], st0, none⟩ := by
        unfold sync_users
        rw [hsu1]
      have habs1 : u.2 = [] ∨
          (cfg.deleteorphans = false ∧ cfg.removeabsent = false) := by
        rcases hcond with hnone | hflags
        · left
          have h2 : umbrellaSetup cfg st0 = .ok (none, []) := by
            unfold umbrellaSetup
            rw [hnone]
          rw [h2] at hsu1
          simp only [Except.ok.injEq] at hsu1
          rw [← hsu1]
        · exact Or.inr hflags
      rw [h1] at hok ⊢
      obtain ⟨hW1, hG1, hP1, hQ1⟩ := groupsFold_run1 cfg d u.1 u.2 hdry hpres habs1
        cfg.ldap_groups [] st0 hwf hok
      exact second_run_noadmin cfg d st0 _ u hcond hsu1 hG1 hP1 hQ1

/-- C4 counterexample: with the stored target username "Alice" (mixed case)
and directory identity "Alice" (folded to "alice" for comparison), the
first non-dry run completes, yet the second run still issues a
group-membership update - the computed diff is not empty on the second
run, refuting unconditional idempotence. -/

theorem C4_counterexample_second_run_reissues :
    (sync_users cfg0 dirCase stCase).err = none ∧
    adminCalls (sync_users cfg0 dirCase (sync_users cfg0 dirCase stCase).st).evs ≠
      [] := by
  decide

theorem C4_second_run_no_admin_calls_witness :
    cfg0.dryrun = false ∧ cfg0.preserve_accountids = false ∧ WFUsers stIdem ∧
    (cfg0.alldirusergroup = none ∨
      (cfg0.deleteorphans = false ∧ cfg0.removeabsent = false)) ∧
    (sync_users cfg0 dirCase stIdem).err = none ∧
    adminCalls (sync_users cfg0 dirCase (sync_users cfg0 dirCase stIdem).st).evs =
      [] :=
  ⟨rfl, rfl, stIdem_wf, Or.inl rfl, by decide,
   C4_second_run_no_admin_calls cfg0 dirCase stIdem rfl rfl stIdem_wf
     (Or.inl rfl) (by decide)⟩

end LdapZabbixSync
